import Mathlib

/-!
Verification development for the ontology coherence-repair pipeline
(`neon-gpt/validate_fix_ontology_consistency.py`).

The Python source is shallowly embedded: rdflib graphs become lists of
triples with set-style add/remove (an rdflib `Graph` is a set of triples,
so `Nodup` hypotheses appear where counting matters), Python exceptions
become `Except String`, and external processes (HermiT, ROBOT, the
language-model service) become explicit oracle parameters.  Python `set`
objects are modelled as duplicate-free lists in insertion order.
-/

set_option maxRecDepth 10000

/-! ## Generic list and string helpers -/

/-- Set-style insertion: append the element only when absent
(models `set.add` of Python). -/
def insertAbsent {α : Type} [DecidableEq α] (l : List α) (a : α) : List α :=
  if a ∈ l then l else l ++ [a]

/-- Boolean test that `pre` is an initial segment of `l`
(models `str.startswith` on the character level). -/
def hasInitSeg {α : Type} [DecidableEq α] : List α → List α → Bool
  | [], _ => true
  | _ :: _, [] => false
  | a :: as, b :: bs => a = b && hasInitSeg as bs

/-- Boolean test that `needle` occurs as a contiguous run inside `hay`
(models Python `needle in hay` on strings). -/
def hasRun {α : Type} [DecidableEq α] (needle : List α) : List α → Bool
  | [] => needle.isEmpty
  | b :: bs => hasInitSeg needle (b :: bs) || hasRun needle bs

/-- Substring test on strings, via the character lists. -/
def strHasSub (hay needle : String) : Bool :=
  hasRun needle.toList hay.toList

/-- Python `str.startswith`. -/
def strStarts (s pre : String) : Bool :=
  hasInitSeg pre.toList s.toList

/-- Python `str.strip()`: drop whitespace from both ends. -/
def pyStrip (s : String) : String :=
  String.mk (((s.toList.dropWhile Char.isWhitespace).reverse.dropWhile
      Char.isWhitespace).reverse)

/-- Python `str.lower()` (the diagnostic vocabulary is ASCII). -/
def pyLower (s : String) : String :=
  String.mk (s.toList.map Char.toLower)

/-! ## RDF data model

An rdflib term is a URI reference, a blank node, or a literal carrying a
lexical form plus an optional datatype URI or language tag (rdflib term
equality compares exactly these components). -/

inductive Node where
  | uri (iri : String)
  | bnode (id : String)
  | lit (lex : String) (dt : Option String) (lang : Option String)
deriving DecidableEq

/-- An RDF triple. -/
structure Triple where
  s : Node
  p : Node
  o : Node
deriving DecidableEq

/-- A graph is a set of triples; modelled as a duplicate-free list. -/
abbrev RGraph := List Triple

/-- Set-style `Graph.add` of rdflib: adding an existing triple is a no-op. -/
def gAdd (g : RGraph) (t : Triple) : RGraph :=
  if t ∈ g then g else g ++ [t]

/-- Set-style `Graph.remove` of rdflib. -/
def gRemove (g : RGraph) (t : Triple) : RGraph :=
  g.filter (fun u => u ≠ t)

/-! Vocabulary constants used by the pipeline. -/

def xsdNS : String := "http://www.w3.org/2001/XMLSchema#"

def xsdDate : String := xsdNS ++ "date"

def xsdDateTime : String := xsdNS ++ "dateTime"

def xsdString : String := xsdNS ++ "string"

def rdfType : Node := Node.uri "http://www.w3.org/1999/02/22-rdf-syntax-ns#type"

def owlTransitiveProperty : Node := Node.uri "http://www.w3.org/2002/07/owl#TransitiveProperty"

def owlPropertyChainAxiom : Node := Node.uri "http://www.w3.org/2002/07/owl#propertyChainAxiom"

def owlInverseOf : Node := Node.uri "http://www.w3.org/2002/07/owl#inverseOf"

def rdfsSubPropertyOf : Node := Node.uri "http://www.w3.org/2000/01/rdf-schema#subPropertyOf"

/-! ## Coherence Diagnostic (`robot_reason_status`)

The external process is abstracted as its observable result: the exit
code `rc` and the two output streams.  The source computes
`diag = (out + "\n" + err).strip()`, lowercases it, and classifies. -/

def incoherent_signals : List String :=
  ["the ontology is inconsistent", "ontology is inconsistent",
   "unsatisfiable", "incoherent"]

def error_signals : List String :=
  ["exception", "stacktrace", "parse", "owlapi", "failed to", "could not",
   "illegalargument", "nullpointer", "not found", "no such file",
   "unsupported"]

/-- Embedding of `robot_reason_status` (classification part): returns
`(status, diag)` with `status` one of `"coherent"`, `"incoherent"`,
`"error"`. -/
def robot_reason_status (rc : Int) (out err : String) : String × String :=
  let diag := pyStrip (out ++ "\n" ++ err)
  let lower := pyLower diag
  if rc = 0 then ("coherent", diag)
  else if incoherent_signals.any (fun s => strHasSub lower s) then
    ("incoherent", diag)
  else if error_signals.any (fun s => strHasSub lower s) then
    ("error", diag)
  else ("error", diag)

/-- Claim C1: the Coherence Diagnostic classifies a reasoner invocation
result by: exit code 0 gives "coherent"; a non-zero exit whose combined
stripped, lowercased output contains an incoherence signal gives
"incoherent" even when tool-error vocabulary is also present (the
incoherence branch is decided first, with no condition on the error
vocabulary); a non-zero exit with neither vocabulary present gives
"error". -/
theorem robot_reason_status_classification (rc : Int) (out err : String) :
    (rc = 0 → (robot_reason_status rc out err).1 = "coherent") ∧
    (rc ≠ 0 →
      incoherent_signals.any
        (fun s => strHasSub (pyLower (pyStrip (out ++ "\n" ++ err))) s) = true →
      (robot_reason_status rc out err).1 = "incoherent") ∧
    (rc ≠ 0 →
      incoherent_signals.any
        (fun s => strHasSub (pyLower (pyStrip (out ++ "\n" ++ err))) s) = false →
      error_signals.any
        (fun s => strHasSub (pyLower (pyStrip (out ++ "\n" ++ err))) s) = false →
      (robot_reason_status rc out err).1 = "error") := by
  refine ⟨fun h0 => ?_, fun hne hinc => ?_, fun hne hinc herr => ?_⟩
  · simp [robot_reason_status, h0]
  · simp [robot_reason_status, hne, hinc]
  · simp [robot_reason_status, hne, hinc, herr]

/-- Witness for C1: a concrete non-zero exit whose output contains both
"unsatisfiable" (incoherence vocabulary) and "exception" (tool-error
vocabulary) is classified "incoherent". -/
theorem robot_reason_status_classification_witness :
    (robot_reason_status 1 "ERROR unsatisfiable class, exception thrown" "").1
      = "incoherent" :=
  (robot_reason_status_classification 1
      "ERROR unsatisfiable class, exception thrown" "").2.1
    (by decide) (by decide)

/-! ## Generic rewrite-pass machinery

Each deterministic pass of the normalizer first collects the matching
triples, then for each collected triple removes it and adds its rewrite.
The lemmas below are proved once for an arbitrary matching predicate `B`
and rewrite `f`, and instantiated per pass. -/

/-- One rewrite step: `g.remove(t); g.add(f t)`. -/
def rewStep (f : Triple → Triple) (acc : RGraph) (t : Triple) : RGraph :=
  gAdd (gRemove acc t) (f t)

/-- The per-pass mutation loop over the collected triples. -/
def rewFold (f : Triple → Triple) (acc : RGraph) (L : List Triple) : RGraph :=
  L.foldl (rewStep f) acc

theorem mem_gAdd {g : RGraph} {t x : Triple} :
    x ∈ gAdd g t ↔ x ∈ g ∨ x = t := by
  by_cases h : t ∈ g <;> simp only [gAdd, h, if_true, if_false, List.mem_append,
    List.mem_singleton]
  exact ⟨Or.inl, fun h' => h'.elim id (fun e => e ▸ h)⟩

theorem mem_gRemove {g : RGraph} {t x : Triple} :
    x ∈ gRemove g t ↔ x ∈ g ∧ x ≠ t := by
  simp [gRemove]

/-- Membership of a non-matching triple survives the whole pass. -/
theorem rewFold_keep {B : Triple → Bool} {f : Triple → Triple}
    {L : List Triple} {acc : RGraph} {x : Triple}
    (hL : ∀ t ∈ L, B t = true) (hx : B x = false) (h : x ∈ acc) :
    x ∈ rewFold f acc L := by
  induction L generalizing acc with
  | nil => exact h
  | cons a as ih =>
    refine ih (fun t ht => hL t (List.mem_cons_of_mem a ht)) ?_
    refine mem_gAdd.2 (Or.inl (mem_gRemove.2 ⟨h, ?_⟩))
    intro e
    rw [e] at hx
    exact absurd (hL a (List.mem_cons_self a as)) (by simp [hx])

/-- Everything in the pass output was already present or is the rewrite of
a collected triple. -/
theorem rewFold_src {f : Triple → Triple} {L : List Triple} {acc : RGraph}
    {x : Triple} (h : x ∈ rewFold f acc L) :
    x ∈ acc ∨ ∃ t ∈ L, x = f t := by
  induction L generalizing acc with
  | nil => exact Or.inl h
  | cons a as ih =>
    rcases ih h with h' | ⟨t, ht, rfl⟩
    · rcases mem_gAdd.1 h' with h'' | rfl
      · exact Or.inl (mem_gRemove.1 h'').1
      · exact Or.inr ⟨a, List.mem_cons_self a as, rfl⟩
    · exact Or.inr ⟨t, List.mem_cons_of_mem a ht, rfl⟩

/-- No matching triple survives the pass, provided every matching triple
of the accumulator was collected and rewrites never match. -/
theorem rewFold_clears {B : Triple → Bool} {f : Triple → Triple}
    {L : List Triple} {acc : RGraph}
    (hL : ∀ t ∈ L, B t = true) (hf : ∀ t, B (f t) = false)
    (hacc : ∀ x, B x = true → x ∈ acc → x ∈ L) :
    ∀ x, B x = true → x ∉ rewFold f acc L := by
  induction L generalizing acc with
  | nil =>
    intro x hx hmem
    exact absurd (hacc x hx hmem) (List.not_mem_nil x)
  | cons a as ih =>
    intro x hx
    refine ih (fun t ht => hL t (List.mem_cons_of_mem a ht)) ?_ x hx
    intro y hy hmem
    rcases mem_gAdd.1 hmem with h' | hfa
    · obtain ⟨hyacc, hyne⟩ := mem_gRemove.1 h'
      rcases List.mem_cons.1 (hacc y hy hyacc) with h'' | h''
      · exact absurd h'' hyne
      · exact h''
    · rw [hfa, hf a] at hy
      exact absurd hy (by simp)

/-- The rewrite of every collected triple is in the pass output. -/
theorem rewFold_adds {B : Triple → Bool} {f : Triple → Triple}
    {L : List Triple} {acc : RGraph} {t : Triple}
    (hL : ∀ u ∈ L, B u = true) (hf : ∀ u, B (f u) = false) (ht : t ∈ L) :
    f t ∈ rewFold f acc L := by
  induction L generalizing acc with
  | nil => exact absurd ht (List.not_mem_nil t)
  | cons a as ih =>
    rcases List.mem_cons.1 ht with h | h
    · rw [h]
      show f a ∈ rewFold f (rewStep f acc a) as
      exact @rewFold_keep B f as (rewStep f acc a) (f a)
        (fun u hu => hL u (List.mem_cons_of_mem a hu))
        (hf a) (mem_gAdd.2 (Or.inr rfl))
    · exact ih (fun u hu => hL u (List.mem_cons_of_mem a hu)) h

/-- Folding over an empty collection is the identity. -/
theorem rewFold_nil {f : Triple → Triple} {acc : RGraph} :
    rewFold f acc [] = acc := rfl

/-! ## Deterministic normalizer: date-to-datetime pass

Embedding of `deterministic_fix_xsd_date_to_datetime` and the regex
`DATE_LEX_RE = ^\d{4}-\d{2}-\d{2}([zZ]|[+-]\d{2}:\d{2})?$`. -/

/-- Start code points of the contiguous ten-digit runs that make up the
Unicode general category Nd (Unicode 15.0) — the character class matched
by `\d` in a Python `str` pattern, which covers every Unicode decimal
digit, not only ASCII `0-9`. Unicode allocates the decimal digits of
each script as a contiguous run `start..start+9`. -/
def pyNdStarts : List Nat :=
  [0x30, 0x660, 0x6F0, 0x7C0, 0x966, 0x9E6, 0xA66, 0xAE6, 0xB66, 0xBE6,
   0xC66, 0xCE6, 0xD66, 0xDE6, 0xE50, 0xED0, 0xF20, 0x1040, 0x1090, 0x17E0,
   0x1810, 0x1946, 0x19D0, 0x1A80, 0x1A90, 0x1B50, 0x1BB0, 0x1C40, 0x1C50,
   0xA620, 0xA8D0, 0xA900, 0xA9D0, 0xA9F0, 0xAA50, 0xABF0, 0xFF10,
   0x104A0, 0x10D30, 0x11066, 0x110F0, 0x11136, 0x111D0, 0x112F0, 0x11450,
   0x114D0, 0x11650, 0x116C0, 0x11730, 0x118E0, 0x11950, 0x11C50, 0x11D50,
   0x11DA0, 0x11F50, 0x16A60, 0x16AC0, 0x16B50,
   0x1D7CE, 0x1D7D8, 0x1D7E2, 0x1D7EC, 0x1D7F6,
   0x1E140, 0x1E2F0, 0x1E4F0, 0x1E950, 0x1FBF0]

/-- Python regex `\d` on a `str` pattern: membership in Unicode Nd. -/
def pyReDigit (c : Char) : Bool :=
  pyNdStarts.any (fun s => decide (s ≤ c.toNat) && decide (c.toNat < s + 10))

/-- The date core `\d{4}-\d{2}-\d{2}` as a positional check on the first
ten characters. -/
def DATE_LEX_RE_core (cs : List Char) : Bool :=
  decide (cs.length = 10) && pyReDigit (cs.getD 0 ' ') && pyReDigit (cs.getD 1 ' ') &&
  pyReDigit (cs.getD 2 ' ') && pyReDigit (cs.getD 3 ' ') && decide (cs.getD 4 ' ' = '-') &&
  pyReDigit (cs.getD 5 ' ') && pyReDigit (cs.getD 6 ' ') && decide (cs.getD 7 ' ' = '-') &&
  pyReDigit (cs.getD 8 ' ') && pyReDigit (cs.getD 9 ' ')

/-- The optional timezone suffix `([zZ]|[+-]\d{2}:\d{2})?`. -/
def DATE_LEX_RE_tzOk (d : List Char) : Bool :=
  decide (d.length = 0) ||
  (decide (d.length = 1) && (decide (d.getD 0 ' ' = 'z') || decide (d.getD 0 ' ' = 'Z'))) ||
  (decide (d.length = 6) && (decide (d.getD 0 ' ' = '+') || decide (d.getD 0 ' ' = '-')) &&
    pyReDigit (d.getD 1 ' ') && pyReDigit (d.getD 2 ' ') && decide (d.getD 3 ' ' = ':') &&
    pyReDigit (d.getD 4 ' ') && pyReDigit (d.getD 5 ' '))

/-- In Python `re`, `$` (outside MULTILINE) matches at the end of the
string and also just before one final newline; since no element of
`DATE_LEX_RE` can consume a newline, matching the anchored pattern is
matching it against the text with a single trailing newline removed. -/
def dollarStrip (cs : List Char) : List Char :=
  if cs.getLast? = some '\n' then cs.dropLast else cs

/-- Whether the lexical form ends in the single trailing newline that
the `$` anchor tolerates. -/
def hasFinalNewline (cs : List Char) : Bool := decide (cs.getLast? = some '\n')

/-- Full-anchored match of `DATE_LEX_RE` with Python `re` semantics
(`re.match` of a `^...$` pattern). -/
def DATE_LEX_RE_match (lex : String) : Bool :=
  DATE_LEX_RE_core ((dollarStrip lex.toList).take 10) &&
  DATE_LEX_RE_tzOk ((dollarStrip lex.toList).drop 10)

/-- The lexical rewrite applied to a matched date lexical form:
`base + "T00:00:00" + tz` with `base`/`tz` computed as in the source
(`lex[:-1]` and `"Z"` when the form ends in `Z` or `z`; `lex[:10]` and
`lex[10:]` when position 10 is a sign; else `lex[:10]` and empty). -/
def convDateLex (lex : String) : String :=
  let cs := lex.toList
  if cs.getLast? = some 'Z' ∨ cs.getLast? = some 'z' then
    String.mk cs.dropLast ++ "T00:00:00" ++ "Z"
  else if 10 < cs.length ∧ (cs.getD 10 ' ' = '+' ∨ cs.getD 10 ' ' = '-') then
    String.mk (cs.take 10) ++ "T00:00:00" ++ String.mk (cs.drop 10)
  else
    String.mk (cs.take 10) ++ "T00:00:00"

/-- Rewrite of one date-typed literal: well-formed lexical forms are
normalized, malformed ones keep their lexical form; the datatype becomes
`xsd:dateTime` either way (`Literal(new_lex, datatype=XSD.dateTime)`). -/
def convDateLit (o : Node) : Node :=
  match o with
  | Node.lit lex _ _ =>
      Node.lit (if DATE_LEX_RE_match lex then convDateLex lex else lex)
        (some xsdDateTime) none
  | x => x

/-- Matching predicate of phase 1: the object is the `xsd:date` URI. -/
def isDateURIObj (t : Triple) : Bool := decide (t.o = Node.uri xsdDate)

/-- Matching predicate of phase 2: the object is a literal typed
`xsd:date`. -/
def isDateLitObj (t : Triple) : Bool :=
  match t.o with
  | Node.lit _ (some dt) _ => decide (dt = xsdDate)
  | _ => false

/-- Phase-1 rewrite: replace the `xsd:date` URI object by `xsd:dateTime`. -/
def toDateTimeURI (t : Triple) : Triple := ⟨t.s, t.p, Node.uri xsdDateTime⟩

/-- Phase-2 rewrite: retype the literal object. -/
def toDateTimeLit (t : Triple) : Triple := ⟨t.s, t.p, convDateLit t.o⟩

/-- Embedding of `deterministic_fix_xsd_date_to_datetime`: phase 1
replaces `xsd:date` URI objects, phase 2 retypes `xsd:date` literals;
returns the rewritten graph and the changed-count. -/
def deterministic_fix_xsd_date_to_datetime (g : RGraph) : RGraph × Nat :=
  let part1 := g.filter isDateURIObj
  let g1 := rewFold toDateTimeURI g part1
  let part2 := g1.filter isDateLitObj
  let g2 := rewFold toDateTimeLit g1 part2
  (g2, part1.length + part2.length)

/-! ## Deterministic normalizer: unsupported-datatype pass -/

/-- The fixed allow-list `OWL2_DATATYPE_URIS` of the source. -/
def OWL2_DATATYPE_URIS : List String :=
  [xsdNS ++ "string", xsdNS ++ "boolean", xsdNS ++ "decimal", xsdNS ++ "float",
   xsdNS ++ "double", xsdNS ++ "duration", xsdNS ++ "dateTime", xsdNS ++ "time",
   xsdNS ++ "date", xsdNS ++ "gYearMonth", xsdNS ++ "gYear", xsdNS ++ "gMonthDay",
   xsdNS ++ "gDay", xsdNS ++ "gMonth", xsdNS ++ "hexBinary", xsdNS ++ "base64Binary",
   xsdNS ++ "anyURI", xsdNS ++ "QName", xsdNS ++ "NOTATION",
   xsdNS ++ "normalizedString", xsdNS ++ "token", xsdNS ++ "language",
   xsdNS ++ "NMTOKEN", xsdNS ++ "Name", xsdNS ++ "NCName", xsdNS ++ "integer",
   xsdNS ++ "nonPositiveInteger", xsdNS ++ "negativeInteger", xsdNS ++ "long",
   xsdNS ++ "int", xsdNS ++ "short", xsdNS ++ "byte", xsdNS ++ "nonNegativeInteger",
   xsdNS ++ "unsignedLong", xsdNS ++ "unsignedInt", xsdNS ++ "unsignedShort",
   xsdNS ++ "unsignedByte", xsdNS ++ "positiveInteger"]

/-- Matching predicate: a literal object whose datatype is present and
outside the allow-list. -/
def isBadDTObj (t : Triple) : Bool :=
  match t.o with
  | Node.lit _ (some dt) _ => decide (dt ∉ OWL2_DATATYPE_URIS)
  | _ => false

/-- Rewrite: `Literal(str(lit), datatype=XSD.string)` — same lexical
form, string datatype, no language tag. -/
def toStringLit (t : Triple) : Triple :=
  match t.o with
  | Node.lit lex _ _ => ⟨t.s, t.p, Node.lit lex (some xsdString) none⟩
  | _ => t

/-- Embedding of `deterministic_fix_unsupported_datatypes_to_string`. -/
def deterministic_fix_unsupported_datatypes_to_string (g : RGraph) : RGraph × Nat :=
  let bad := g.filter isBadDTObj
  (rewFold toStringLit g bad, bad.length)

/-! ## Claim C6: the date-to-datetime pass -/

theorem strMkData (l : List Char) : (String.mk l).data = l := rfl

theorem strMk_nil : String.mk [] = "" := rfl

theorem data_emptyStr : ("" : String).data = [] := rfl

/-- Spec-side description (amended) of the timezone output for a
matched date form whose timezone text after newline stripping is `tz`
and whose newline flag is `nl`: a numeric suffix is kept together with
the trailing newline; a `z`/`Z` suffix becomes uppercase `Z` without a
newline and disappears entirely with one; no suffix yields no suffix
(a bare trailing newline is dropped). -/
def tzOutSpec (tz : String) (nl : Bool) : String :=
  if tz = "" then ""
  else if tz = "z" ∨ tz = "Z" then (if nl then "" else "Z")
  else tz ++ (if nl then "\n" else "")

/-- A list whose last element is `a` splits as `init ++ [a]`. -/
theorem getLast?_some_split {cs : List Char} {a : Char}
    (h : cs.getLast? = some a) : ∃ init, cs = init ++ [a] := by
  induction cs with
  | nil => simp at h
  | cons x xs ih =>
    cases xs with
    | nil =>
      have hx : x = a := by simpa using h
      exact ⟨[], by simp [hx]⟩
    | cons y ys =>
      have h2 : (y :: ys).getLast? = some a := by
        simpa [List.getLast?_cons_cons] using h
      obtain ⟨init, hinit⟩ := ih h2
      exact ⟨x :: init, by rw [hinit]; rfl⟩

/-- Stripping the `$`-tolerated newline from a newline-terminated list. -/
theorem dollarStrip_concat {cs : List Char} :
    dollarStrip (cs ++ ['\n']) = cs := by
  simp [dollarStrip, List.getLast?_concat, List.dropLast_concat]

/-- Stripping is the identity without a trailing newline. -/
theorem dollarStrip_of_not_nl {cs : List Char}
    (h : ¬ cs.getLast? = some '\n') : dollarStrip cs = cs := by
  simp [dollarStrip, h]

/-- Matched date lexical forms are rewritten to the first ten characters
of the newline-stripped text, then `T00:00:00`, then the timezone output
described by `tzOutSpec`. -/
theorem convDateLex_eq (lex : String) (h : DATE_LEX_RE_match lex = true) :
    convDateLex lex = String.mk ((dollarStrip lex.toList).take 10) ++ "T00:00:00" ++
      tzOutSpec (String.mk ((dollarStrip lex.toList).drop 10))
        (hasFinalNewline lex.toList) := by
  rw [DATE_LEX_RE_match, Bool.and_eq_true] at h
  obtain ⟨hcore, htz⟩ := h
  simp only [convDateLex]
  generalize lex.toList = cs at hcore htz ⊢
  by_cases hn : cs.getLast? = some '\n'
  · -- the form carries the single trailing newline tolerated by `$`
    obtain ⟨body, rfl⟩ := getLast?_some_split hn
    rw [dollarStrip_concat] at hcore htz ⊢
    rw [show hasFinalNewline (body ++ ['\n']) = true from by
      simp [hasFinalNewline, List.getLast?_concat]]
    simp only [DATE_LEX_RE_core, Bool.and_eq_true, decide_eq_true_eq] at hcore
    obtain ⟨⟨⟨⟨⟨⟨⟨⟨⟨⟨hlen, h0⟩, h1⟩, h2⟩, h3⟩, h4⟩, h5⟩, h6⟩, h7⟩, h8⟩, h9⟩ := hcore
    rw [List.length_take] at hlen
    have hlen10 : 10 ≤ body.length := by omega
    clear h0 h1 h2 h3 h4 h5 h6 h7 h8 h9 hlen
    rcases body with _|⟨c0,body⟩; · simp at hlen10
    rcases body with _|⟨c1,body⟩; · simp at hlen10
    rcases body with _|⟨c2,body⟩; · simp at hlen10
    rcases body with _|⟨c3,body⟩; · simp at hlen10
    rcases body with _|⟨c4,body⟩; · simp at hlen10
    rcases body with _|⟨c5,body⟩; · simp at hlen10
    rcases body with _|⟨c6,body⟩; · simp at hlen10
    rcases body with _|⟨c7,body⟩; · simp at hlen10
    rcases body with _|⟨c8,body⟩; · simp at hlen10
    rcases body with _|⟨c9,body⟩; · simp at hlen10
    simp only [DATE_LEX_RE_tzOk, List.drop_succ_cons, List.drop_zero,
      Bool.or_eq_true, Bool.and_eq_true, decide_eq_true_eq] at htz
    rcases htz with (hA | hB) | hC
    · -- no timezone suffix: base = lex[:10], the newline is dropped
      obtain rfl : body = [] := List.length_eq_zero.1 hA
      simp only [List.cons_append, List.nil_append]
      rw [if_neg (by simp)]
      rw [if_neg (by simp [List.getD])]
      have ht1 : List.take 10 [c0,c1,c2,c3,c4,c5,c6,c7,c8,c9,'\n']
          = [c0,c1,c2,c3,c4,c5,c6,c7,c8,c9] := by simp
      have ht2 : List.take 10 [c0,c1,c2,c3,c4,c5,c6,c7,c8,c9]
          = [c0,c1,c2,c3,c4,c5,c6,c7,c8,c9] := by simp
      have hd2 : List.drop 10 [c0,c1,c2,c3,c4,c5,c6,c7,c8,c9] = [] := by simp
      rw [ht1, ht2, hd2, strMk_nil]
      apply String.ext
      simp [String.data_append, tzOutSpec, strMkData, data_emptyStr]
    · -- z/Z suffix followed by the newline: both are dropped
      obtain ⟨hb1, hbz⟩ := hB
      obtain ⟨b, rfl⟩ := List.length_eq_one.1 hb1
      have hbz' : b = 'z' ∨ b = 'Z' := by simpa [List.getD] using hbz
      have hzz : tzOutSpec (String.mk [b]) true = "" := by
        rcases hbz' with rfl | rfl
        · rw [show (String.mk ['z'] : String) = "z" from rfl]; decide
        · rw [show (String.mk ['Z'] : String) = "Z" from rfl]; decide
      simp only [List.cons_append, List.nil_append]
      rw [if_neg (by simp)]
      rw [if_neg (by
        rintro ⟨-, he | he⟩ <;>
          (rw [show List.getD (c0::c1::c2::c3::c4::c5::c6::c7::c8::c9::b:: '\n' ::([]:List Char)) 10 ' '
              = b from by simp [List.getD]] at he
           rcases hbz' with rfl | rfl <;> exact absurd he (by decide)))]
      have ht1 : List.take 10 [c0,c1,c2,c3,c4,c5,c6,c7,c8,c9,b]
          = [c0,c1,c2,c3,c4,c5,c6,c7,c8,c9] := by simp
      have ht2 : List.take 10 [c0,c1,c2,c3,c4,c5,c6,c7,c8,c9,b,'\n']
          = [c0,c1,c2,c3,c4,c5,c6,c7,c8,c9] := by simp
      have hd2 : List.drop 10 [c0,c1,c2,c3,c4,c5,c6,c7,c8,c9,b] = [b] := by simp
      rw [ht2, ht1, hd2, hzz]
      apply String.ext
      simp [String.data_append, strMkData, data_emptyStr]
    · -- numeric suffix: tz = lex[10:], the newline survives inside it
      obtain ⟨⟨⟨⟨⟨⟨hc6, hsgn⟩, hd1⟩, hd2⟩, hcol⟩, hd4⟩, hd5⟩ := hC
      rcases body with _|⟨b0,body⟩; · simp at hc6
      rcases body with _|⟨b1,body⟩; · simp at hc6
      rcases body with _|⟨b2,body⟩; · simp at hc6
      rcases body with _|⟨b3,body⟩; · simp at hc6
      rcases body with _|⟨b4,body⟩; · simp at hc6
      rcases body with _|⟨b5,body⟩; · simp at hc6
      obtain rfl : body = [] := by simpa using hc6
      have hsgn' : b0 = '+' ∨ b0 = '-' := by simpa [List.getD] using hsgn
      simp only [List.cons_append, List.nil_append]
      rw [if_neg (by simp)]
      rw [if_pos (⟨by simp, by simpa [List.getD] using hsgn'⟩ :
        10 < (c0::c1::c2::c3::c4::c5::c6::c7::c8::c9::b0::b1::b2::b3::b4::b5:: '\n' ::([]:List Char)).length ∧ _)]
      have ht1 : List.take 10 [c0,c1,c2,c3,c4,c5,c6,c7,c8,c9,b0,b1,b2,b3,b4,b5,'\n']
          = [c0,c1,c2,c3,c4,c5,c6,c7,c8,c9] := by simp
      have hdL : List.drop 10 [c0,c1,c2,c3,c4,c5,c6,c7,c8,c9,b0,b1,b2,b3,b4,b5,'\n']
          = [b0,b1,b2,b3,b4,b5,'\n'] := by simp
      have ht2 : List.take 10 [c0,c1,c2,c3,c4,c5,c6,c7,c8,c9,b0,b1,b2,b3,b4,b5]
          = [c0,c1,c2,c3,c4,c5,c6,c7,c8,c9] := by simp
      have hd3 : List.drop 10 [c0,c1,c2,c3,c4,c5,c6,c7,c8,c9,b0,b1,b2,b3,b4,b5]
          = [b0,b1,b2,b3,b4,b5] := by simp
      rw [ht1, hdL, ht2, hd3]
      have hne1 : ¬(String.mk [b0,b1,b2,b3,b4,b5] = "") := by
        intro he
        have h2 := congrArg String.data he
        simp [strMkData] at h2
      have hne2 : ¬(String.mk [b0,b1,b2,b3,b4,b5] = "z" ∨
          String.mk [b0,b1,b2,b3,b4,b5] = "Z") := by
        rintro (he | he) <;>
          (have h2 := congrArg String.data he; simp [strMkData] at h2)
      rw [show tzOutSpec (String.mk [b0,b1,b2,b3,b4,b5]) true
          = String.mk [b0,b1,b2,b3,b4,b5] ++ "\n" from by
        simp only [tzOutSpec, if_neg hne1, if_neg hne2, if_true]]
      apply String.ext
      simp [String.data_append, strMkData, show ("\n" : String).data = ['\n'] from rfl]
  · -- no trailing newline: the stripped text is the text itself
    rw [dollarStrip_of_not_nl hn] at hcore htz ⊢
    rw [show hasFinalNewline cs = false from by simp [hasFinalNewline, hn]]
    simp only [DATE_LEX_RE_core, Bool.and_eq_true, decide_eq_true_eq] at hcore
    obtain ⟨⟨⟨⟨⟨⟨⟨⟨⟨⟨hlen, h0⟩, h1⟩, h2⟩, h3⟩, h4⟩, h5⟩, h6⟩, h7⟩, h8⟩, h9⟩ := hcore
    rw [List.length_take] at hlen
    have hlen10 : 10 ≤ cs.length := by omega
    clear h0 h1 h2 h3 h4 h5 h6 h7 h8 hlen
    rcases cs with _|⟨c0,cs⟩; · simp at hlen10
    rcases cs with _|⟨c1,cs⟩; · simp at hlen10
    rcases cs with _|⟨c2,cs⟩; · simp at hlen10
    rcases cs with _|⟨c3,cs⟩; · simp at hlen10
    rcases cs with _|⟨c4,cs⟩; · simp at hlen10
    rcases cs with _|⟨c5,cs⟩; · simp at hlen10
    rcases cs with _|⟨c6,cs⟩; · simp at hlen10
    rcases cs with _|⟨c7,cs⟩; · simp at hlen10
    rcases cs with _|⟨c8,cs⟩; · simp at hlen10
    rcases cs with _|⟨c9,cs⟩; · simp at hlen10
    simp only [DATE_LEX_RE_tzOk, List.drop_succ_cons, List.drop_zero,
      Bool.or_eq_true, Bool.and_eq_true, decide_eq_true_eq] at htz
    have h9d : pyReDigit c9 = true := by simpa [List.getD] using h9
    rcases htz with (hA | hB) | hC
    · -- no timezone suffix
      obtain rfl : cs = [] := List.length_eq_zero.1 hA
      have hlast : (c0::c1::c2::c3::c4::c5::c6::c7::c8::c9::([]:List Char)).getLast?
          = some c9 := by simp
      rw [if_neg (by
        rw [hlast]
        rintro (he | he) <;>
          (injection he with he; subst he; exact absurd h9d (by decide)))]
      rw [if_neg (by
        rintro ⟨hlt, -⟩
        simp at hlt)]
      apply String.ext
      simp [String.data_append, tzOutSpec, strMk_nil, strMkData, data_emptyStr]
    · -- single-letter timezone suffix z or Z
      obtain ⟨hb1, hbz⟩ := hB
      obtain ⟨b, rfl⟩ := List.length_eq_one.1 hb1
      have hbz' : b = 'z' ∨ b = 'Z' := by simpa [List.getD] using hbz
      rcases hbz' with rfl | rfl
      · rw [if_pos (Or.inr (by simp))]
        apply String.ext
        have hdrop : List.drop 10 [c0,c1,c2,c3,c4,c5,c6,c7,c8,c9,'z'] = ['z'] := by simp
        rw [hdrop, show (String.mk ['z'] : String) = "z" from rfl,
          (by decide : tzOutSpec "z" false = "Z")]
        simp [String.data_append, strMkData]
      · rw [if_pos (Or.inl (by simp))]
        apply String.ext
        have hdrop : List.drop 10 [c0,c1,c2,c3,c4,c5,c6,c7,c8,c9,'Z'] = ['Z'] := by simp
        rw [hdrop, show (String.mk ['Z'] : String) = "Z" from rfl,
          (by decide : tzOutSpec "Z" false = "Z")]
        simp [String.data_append, strMkData]
    · -- numeric timezone suffix
      obtain ⟨⟨⟨⟨⟨⟨hc6, hsgn⟩, hd1⟩, hd2⟩, hcol⟩, hd4⟩, hd5⟩ := hC
      rcases cs with _|⟨b0,cs⟩; · simp at hc6
      rcases cs with _|⟨b1,cs⟩; · simp at hc6
      rcases cs with _|⟨b2,cs⟩; · simp at hc6
      rcases cs with _|⟨b3,cs⟩; · simp at hc6
      rcases cs with _|⟨b4,cs⟩; · simp at hc6
      rcases cs with _|⟨b5,cs⟩; · simp at hc6
      obtain rfl : cs = [] := by simpa using hc6
      have hd5' : pyReDigit b5 = true := by simpa [List.getD] using hd5
      have hsgn' : b0 = '+' ∨ b0 = '-' := by simpa [List.getD] using hsgn
      have hlast : (c0::c1::c2::c3::c4::c5::c6::c7::c8::c9::b0::b1::b2::b3::b4::b5::([]:List Char)).getLast?
          = some b5 := by simp
      rw [if_neg (by
        rw [hlast]
        rintro (he | he) <;>
          (injection he with he; subst he; exact absurd hd5' (by decide)))]
      rw [if_pos (⟨by simp, by simpa [List.getD] using hsgn'⟩ :
        10 < (c0::c1::c2::c3::c4::c5::c6::c7::c8::c9::b0::b1::b2::b3::b4::b5::([]:List Char)).length ∧ _)]
      have hdrop : List.drop 10 [c0,c1,c2,c3,c4,c5,c6,c7,c8,c9,b0,b1,b2,b3,b4,b5]
          = [b0,b1,b2,b3,b4,b5] := by simp
      rw [hdrop]
      have hne1 : ¬(String.mk [b0,b1,b2,b3,b4,b5] = "") := by
        intro he
        have h2 := congrArg String.data he
        simp [strMkData] at h2
      have hne2 : ¬(String.mk [b0,b1,b2,b3,b4,b5] = "z" ∨
          String.mk [b0,b1,b2,b3,b4,b5] = "Z") := by
        rintro (he | he) <;>
          (have h2 := congrArg String.data he; simp [strMkData] at h2)
      rw [show tzOutSpec (String.mk [b0,b1,b2,b3,b4,b5]) false
          = String.mk [b0,b1,b2,b3,b4,b5] ++ "" from by
        simp only [tzOutSpec, if_neg hne1, if_neg hne2, Bool.false_eq_true, if_false]]
      apply String.ext
      simp [String.data_append, strMkData, data_emptyStr]

theorem dateTimeURI_ne_dateURI :
    decide (Node.uri xsdDateTime = Node.uri xsdDate) = false := by decide

theorem isDateURIObj_toDateTimeURI (t : Triple) :
    isDateURIObj (toDateTimeURI t) = false := by
  simp only [isDateURIObj, toDateTimeURI]
  exact dateTimeURI_ne_dateURI

theorem isDateLitObj_toDateTimeURI (t : Triple) :
    isDateLitObj (toDateTimeURI t) = false := rfl

theorem isDateLitObj_toDateTimeLit (t : Triple) :
    isDateLitObj (toDateTimeLit t) = false := by
  rcases t with ⟨s, p, o⟩
  cases o with
  | lit lex dt lang =>
    simp only [toDateTimeLit, convDateLit, isDateLitObj]
    decide
  | uri u => rfl
  | bnode b => rfl

/-- Counterexample for claim C6 as stated, in two parts. First, the
well-formed date literal `"2020-01-01z"^^xsd:date` has timezone suffix
`z`, but the pass produces the lexical form `2020-01-01T00:00:00Z` —
the suffix is uppercased, not preserved. Second, `"2020-01-01\n"` is not
of the shape `YYYY-MM-DD` plus timezone suffix, yet `DATE_LEX_RE`
matches it under Python `re` semantics (`$` also matches before one
final newline), so the pass rewrites it to `2020-01-01T00:00:00` rather
than leaving the lexical form unchanged. -/
theorem date_fix_spec_counterexample :
    ((deterministic_fix_xsd_date_to_datetime
        [⟨Node.uri "http://ex/s", Node.uri "http://ex/p",
          Node.lit "2020-01-01z" (some xsdDate) none⟩]).1
      = [⟨Node.uri "http://ex/s", Node.uri "http://ex/p",
          Node.lit "2020-01-01T00:00:00Z" (some xsdDateTime) none⟩] ∧
    "2020-01-01T00:00:00Z" ≠ "2020-01-01" ++ "T00:00:00" ++ "z") ∧
    ((deterministic_fix_xsd_date_to_datetime
        [⟨Node.uri "http://ex/s", Node.uri "http://ex/p",
          Node.lit "2020-01-01\n" (some xsdDate) none⟩]).1
      = [⟨Node.uri "http://ex/s", Node.uri "http://ex/p",
          Node.lit "2020-01-01T00:00:00" (some xsdDateTime) none⟩] ∧
    "2020-01-01T00:00:00" ≠ "2020-01-01\n") := by
  refine ⟨⟨?_, ?_⟩, ?_, ?_⟩ <;> decide

/-- Claim C6 (amended): after the date-to-datetime pass no literal
carries the `xsd:date` datatype and no object is the `xsd:date` URI;
every `xsd:date` literal of the input reappears retyped to
`xsd:dateTime` — rewritten when `DATE_LEX_RE` matches under Python `re`
semantics (`\d` accepts any Unicode decimal digit and `$` also matches
before one final newline), lexically unchanged otherwise; a matched
form is rewritten to the first ten characters of the newline-stripped
text plus `T00:00:00` plus the timezone output of `tzOutSpec` (numeric
suffix kept together with any trailing newline; `z`/`Z` becomes `Z`
without a newline and is dropped with one; a bare trailing newline is
dropped); and re-running the pass on its own output changes nothing and
reports a changed-count of zero. -/
theorem date_fix_properties (g : RGraph) :
    (∀ t ∈ (deterministic_fix_xsd_date_to_datetime g).1,
        isDateLitObj t = false ∧ isDateURIObj t = false) ∧
    (∀ s p lex lg, Triple.mk s p (Node.lit lex (some xsdDate) lg) ∈ g →
        Triple.mk s p (Node.lit
            (if DATE_LEX_RE_match lex then convDateLex lex else lex)
            (some xsdDateTime) none)
          ∈ (deterministic_fix_xsd_date_to_datetime g).1) ∧
    (∀ lex, DATE_LEX_RE_match lex = true →
        convDateLex lex = String.mk ((dollarStrip lex.toList).take 10) ++ "T00:00:00" ++
          tzOutSpec (String.mk ((dollarStrip lex.toList).drop 10))
            (hasFinalNewline lex.toList)) ∧
    deterministic_fix_xsd_date_to_datetime
        (deterministic_fix_xsd_date_to_datetime g).1
      = ((deterministic_fix_xsd_date_to_datetime g).1, 0) := by
  have hL1 : ∀ u ∈ g.filter isDateURIObj, isDateURIObj u = true :=
    fun u hu => (List.mem_filter.1 hu).2
  have hL2 : ∀ u ∈ (rewFold toDateTimeURI g (g.filter isDateURIObj)).filter isDateLitObj,
      isDateLitObj u = true :=
    fun u hu => (List.mem_filter.1 hu).2
  have hnoDateLit : ∀ t, isDateLitObj t = true →
      t ∉ (deterministic_fix_xsd_date_to_datetime g).1 := by
    intro t ht
    exact rewFold_clears hL2 isDateLitObj_toDateTimeLit
      (fun x hx hmem => List.mem_filter.2 ⟨hmem, hx⟩) t ht
  have hnoDateURI1 : ∀ t, isDateURIObj t = true →
      t ∉ rewFold toDateTimeURI g (g.filter isDateURIObj) := by
    intro t ht
    exact rewFold_clears hL1 isDateURIObj_toDateTimeURI
      (fun x hx hmem => List.mem_filter.2 ⟨hmem, hx⟩) t ht
  have hnoDateURI : ∀ t ∈ (deterministic_fix_xsd_date_to_datetime g).1,
      isDateURIObj t = false := by
    intro t ht
    rcases rewFold_src ht with h1 | ⟨u, hu, rfl⟩
    · cases hb : isDateURIObj t
      · rfl
      · exact absurd h1 (hnoDateURI1 t hb)
    · have hu' := hL2 u hu
      rcases u with ⟨us, up, uo⟩
      cases uo with
      | lit lex dt lang => rfl
      | uri x => exact absurd hu' (by simp [isDateLitObj])
      | bnode b => exact absurd hu' (by simp [isDateLitObj])
  refine ⟨?_, ?_, fun lex h => convDateLex_eq lex h, ?_⟩
  · intro t ht
    refine ⟨?_, hnoDateURI t ht⟩
    cases hb : isDateLitObj t
    · rfl
    · exact absurd ht (hnoDateLit t hb)
  · intro s p lex lg ht
    have hfalse1 : isDateURIObj (Triple.mk s p (Node.lit lex (some xsdDate) lg)) = false := rfl
    have hg1 : Triple.mk s p (Node.lit lex (some xsdDate) lg) ∈
        rewFold toDateTimeURI g (g.filter isDateURIObj) :=
      rewFold_keep hL1 hfalse1 ht
    have hpart2 : Triple.mk s p (Node.lit lex (some xsdDate) lg) ∈
        (rewFold toDateTimeURI g (g.filter isDateURIObj)).filter isDateLitObj :=
      List.mem_filter.2 ⟨hg1, by simp [isDateLitObj, xsdDate]⟩
    have := @rewFold_adds isDateLitObj toDateTimeLit
      ((rewFold toDateTimeURI g (g.filter isDateURIObj)).filter isDateLitObj)
      (rewFold toDateTimeURI g (g.filter isDateURIObj))
      (Triple.mk s p (Node.lit lex (some xsdDate) lg))
      hL2 isDateLitObj_toDateTimeLit hpart2
    simpa [toDateTimeLit, convDateLit] using this
  · have e1 : ((deterministic_fix_xsd_date_to_datetime g).1).filter isDateURIObj = [] :=
      List.filter_eq_nil_iff.2 (fun t ht => by simp [hnoDateURI t ht])
    have e2 : ((deterministic_fix_xsd_date_to_datetime g).1).filter isDateLitObj = [] :=
      List.filter_eq_nil_iff.2 (fun t ht => by
        cases hb : isDateLitObj t
        · simp
        · exact absurd ht (hnoDateLit t hb))
    show deterministic_fix_xsd_date_to_datetime _ = _
    rw [deterministic_fix_xsd_date_to_datetime]
    simp only [e1, rewFold_nil, e2, List.length_nil]

/-- Witness for C6 (amended): a date literal with a numeric timezone
suffix is normalized with the suffix preserved. -/
theorem date_fix_properties_witness :
    Triple.mk (Node.uri "http://ex/s") (Node.uri "http://ex/p")
        (Node.lit
          (if DATE_LEX_RE_match "2020-01-02+05:00" then convDateLex "2020-01-02+05:00"
            else "2020-01-02+05:00")
          (some xsdDateTime) none)
      ∈ (deterministic_fix_xsd_date_to_datetime
          [⟨Node.uri "http://ex/s", Node.uri "http://ex/p",
            Node.lit "2020-01-02+05:00" (some xsdDate) none⟩]).1 :=
  (date_fix_properties
      [⟨Node.uri "http://ex/s", Node.uri "http://ex/p",
        Node.lit "2020-01-02+05:00" (some xsdDate) none⟩]).2.1
    (Node.uri "http://ex/s") (Node.uri "http://ex/p") "2020-01-02+05:00" none
    (by decide)

/-! ## Claim C7: the unsupported-datatype coercion pass -/

theorem stringDT_allowed : decide (xsdString ∉ OWL2_DATATYPE_URIS) = false := by decide

theorem isBadDTObj_toStringLit (t : Triple) :
    isBadDTObj (toStringLit t) = false := by
  rcases t with ⟨s, p, o⟩
  cases o with
  | lit lex dt lang =>
    simp only [toStringLit, isBadDTObj]
    exact stringDT_allowed
  | uri u => rfl
  | bnode b => rfl

/-- Claim C7: the coercion pass is a total function on graphs (it is
defined for every input and below is characterized on all of them);
after it, every literal whose datatype was outside the allow-list
reappears with datatype `xsd:string` and an identical lexical form,
every triple whose object is not such a literal is untouched, and no
literal with a datatype outside the allow-list remains. -/
theorem unsupported_datatype_fix_properties (g : RGraph) :
    (∀ s p lex dt lg, Triple.mk s p (Node.lit lex (some dt) lg) ∈ g →
        dt ∉ OWL2_DATATYPE_URIS →
        Triple.mk s p (Node.lit lex (some xsdString) none)
          ∈ (deterministic_fix_unsupported_datatypes_to_string g).1) ∧
    (∀ t ∈ g, isBadDTObj t = false →
        t ∈ (deterministic_fix_unsupported_datatypes_to_string g).1) ∧
    (∀ t ∈ (deterministic_fix_unsupported_datatypes_to_string g).1,
        isBadDTObj t = false) := by
  have hL : ∀ u ∈ g.filter isBadDTObj, isBadDTObj u = true :=
    fun u hu => (List.mem_filter.1 hu).2
  refine ⟨?_, ?_, ?_⟩
  · intro s p lex dt lg ht hdt
    have hbad : isBadDTObj (Triple.mk s p (Node.lit lex (some dt) lg)) = true := by
      simp [isBadDTObj, hdt]
    have hmem : Triple.mk s p (Node.lit lex (some dt) lg) ∈ g.filter isBadDTObj :=
      List.mem_filter.2 ⟨ht, hbad⟩
    have := @rewFold_adds isBadDTObj toStringLit (g.filter isBadDTObj) g
      (Triple.mk s p (Node.lit lex (some dt) lg))
      hL isBadDTObj_toStringLit hmem
    simpa [toStringLit] using this
  · intro t ht hfalse
    exact rewFold_keep hL hfalse ht
  · intro t ht
    cases hb : isBadDTObj t
    · rfl
    · exact absurd ht (rewFold_clears hL isBadDTObj_toStringLit
        (fun x hx hmem => List.mem_filter.2 ⟨hmem, hx⟩) t hb)

/-- Witness for C7: a literal with the non-allow-listed datatype
`http://example.org/customType` is coerced to an `xsd:string` literal
with the same lexical form. -/
theorem unsupported_datatype_fix_properties_witness :
    Triple.mk (Node.uri "http://ex/s") (Node.uri "http://ex/p")
        (Node.lit "abc" (some xsdString) none)
      ∈ (deterministic_fix_unsupported_datatypes_to_string
          [⟨Node.uri "http://ex/s", Node.uri "http://ex/p",
            Node.lit "abc" (some "http://example.org/customType") none⟩]).1 :=
  (unsupported_datatype_fix_properties
      [⟨Node.uri "http://ex/s", Node.uri "http://ex/p",
        Node.lit "abc" (some "http://example.org/customType") none⟩]).1
    (Node.uri "http://ex/s") (Node.uri "http://ex/p") "abc"
    "http://example.org/customType" none (by decide) (by decide)

/-! ## Non-Simple-Property Resolver

Embedding of `inverse_props` / `super_props` / `sub_props`,
`related_property_closure` and `remove_non_simple_causes`.  Python sets
are duplicate-free lists in insertion order; rdflib accessors
(`g.objects`, `g.subjects`) yield each term once. -/

/-- Whether a term is a URI reference (`isinstance(x, URIRef)`). -/
def isURIRef (n : Node) : Bool :=
  match n with
  | Node.uri _ => true
  | _ => false

/-- Distinct objects of triples `(s, pr, ?)` (models `g.objects`). -/
def objectsOf (g : RGraph) (s pr : Node) : List Node :=
  ((g.filter (fun t => decide (t.s = s) && decide (t.p = pr))).map Triple.o).dedup

/-- Distinct subjects of triples `(?, pr, o)` (models `g.subjects`). -/
def subjectsOf (g : RGraph) (pr o : Node) : List Node :=
  ((g.filter (fun t => decide (t.p = pr) && decide (t.o = o))).map Triple.s).dedup

/-- Embedding of `inverse_props`: URI-reference inverses of `p` in
either direction. -/
def inverse_props (g : RGraph) (p : Node) : List Node :=
  ((objectsOf g p owlInverseOf ++ subjectsOf g owlInverseOf p).filter isURIRef).dedup

/-- Embedding of `super_props`. -/
def super_props (g : RGraph) (p : Node) : List Node :=
  (objectsOf g p rdfsSubPropertyOf).filter isURIRef

/-- Embedding of `sub_props`. -/
def sub_props (g : RGraph) (p : Node) : List Node :=
  (subjectsOf g rdfsSubPropertyOf p).filter isURIRef

/-- Python `seen.union(nxt)`. -/
def listUnion (a b : List Node) : List Node :=
  a ++ b.filter (fun x => decide (x ∉ a))

/-- One round of the closure loop: process every frontier property not
yet seen, collecting the next frontier; an early total-size cutoff
returns `seen.union(nxt)` for the whole closure computation. -/
def closureScan (g : RGraph) (limit : Nat) :
    List Node → List Node → List Node → Except (List Node) (List Node × List Node)
  | [], seen, nxt => Except.ok (seen, nxt)
  | p :: rest, seen, nxt =>
    if p ∈ seen then closureScan g limit rest seen nxt
    else
      let seen' := seen ++ [p]
      let qs := (inverse_props g p ++ super_props g p ++ sub_props g p).dedup
      let nxt' := qs.foldl (fun acc q => if q ∈ seen' then acc else insertAbsent acc q) nxt
      if limit ≤ seen'.length + nxt'.length then Except.error (listUnion seen' nxt')
      else closureScan g limit rest seen' nxt'

/-- The `for _ in range(depth + 1)` rounds of
`related_property_closure`; an empty next frontier breaks early. -/
def closureRounds (g : RGraph) (limit : Nat) :
    Nat → List Node → List Node → List Node
  | 0, _, seen => seen
  | r + 1, frontier, seen =>
    match closureScan g limit frontier seen [] with
    | Except.error full => full
    | Except.ok (seen', nxt) =>
      if nxt = [] then seen'
      else closureRounds g limit r nxt seen'

/-- Embedding of `related_property_closure`. -/
def related_property_closure (g : RGraph) (root : Node) (depth limit : Nat) : List Node :=
  closureRounds g limit (depth + 1) [root] []

/-- Removal of the non-simple causes of one property: its
`owl:TransitiveProperty` type triple (if present), then every
`owl:propertyChainAxiom` triple it carries; returns the new graph and
the removal count. -/
def removeForProp (g : RGraph) (p : Node) : RGraph × Nat :=
  let r1 :=
    if Triple.mk p rdfType owlTransitiveProperty ∈ g then
      (gRemove g (Triple.mk p rdfType owlTransitiveProperty), 1)
    else (g, 0)
  let chains := objectsOf r1.1 p owlPropertyChainAxiom
  (chains.foldl (fun acc c => gRemove acc (Triple.mk p owlPropertyChainAxiom c)) r1.1,
   r1.2 + chains.length)

/-- Embedding of `remove_non_simple_causes` over the property set. -/
def remove_non_simple_causes (g : RGraph) (props : List Node) : RGraph × Nat :=
  match props with
  | [] => (g, 0)
  | p :: rest =>
    let r1 := removeForProp g p
    let r2 := remove_non_simple_causes r1.1 rest
    (r2.1, r1.2 + r2.2)

/-- Embedding of `deterministic_fix_non_simple` (depth 2, limit 500):
returns `(count, graph)` as the source returns the count and mutates the
graph. -/
def deterministic_fix_non_simple (g : RGraph) (prop_iri : String) : Nat × RGraph :=
  let props := related_property_closure g (Node.uri prop_iri) 2 500
  let r := remove_non_simple_causes g props
  (r.2, r.1)

/-- A triple that makes its subject property non-simple: a
transitive-type assertion or a property-chain axiom. -/
def isCauseT (t : Triple) : Bool :=
  (decide (t.p = rdfType) && decide (t.o = owlTransitiveProperty)) ||
  decide (t.p = owlPropertyChainAxiom)

/-- Number of non-simple causes present in a graph. -/
def causeCount (g : RGraph) : Nat := (g.filter isCauseT).length

theorem rdfType_ne_chain : decide (rdfType = owlPropertyChainAxiom) = false := by decide


theorem mem_objectsOf {g : RGraph} {s pr c : Node} :
    c ∈ objectsOf g s pr ↔ Triple.mk s pr c ∈ g := by
  simp only [objectsOf, List.mem_dedup, List.mem_map, List.mem_filter,
    Bool.and_eq_true, decide_eq_true_eq]
  constructor
  · rintro ⟨t, ⟨ht, hs, hp⟩, rfl⟩
    rcases t with ⟨t1, t2, t3⟩
    simp only at hs hp
    rw [hs, hp] at ht
    exact ht
  · intro h
    exact ⟨Triple.mk s pr c, ⟨h, rfl, rfl⟩, rfl⟩

theorem foldl_gRemove_chains (p : Node) (chains : List Node) (h : RGraph) :
    chains.foldl (fun acc c => gRemove acc (Triple.mk p owlPropertyChainAxiom c)) h
      = h.filter (fun x =>
          !(chains.any (fun c => decide (x = Triple.mk p owlPropertyChainAxiom c)))) := by
  induction chains generalizing h with
  | nil => simp
  | cons c cs ih =>
    show cs.foldl _ (gRemove h (Triple.mk p owlPropertyChainAxiom c)) = _
    rw [ih, gRemove, List.filter_filter]
    refine List.filter_congr ?_
    intro x _
    by_cases h1 : x = Triple.mk p owlPropertyChainAxiom c <;>
      simp [h1, List.any_cons]

theorem causePointwise {g : RGraph} {p : Node} {CH : List Node} {x : Triple}
    (hCH : ∀ c, c ∈ CH ↔ Triple.mk p owlPropertyChainAxiom c ∈ g)
    (hx : x ∈ g)
    (htr : Triple.mk p rdfType owlTransitiveProperty ∉ g) :
    (!(CH.any (fun c => decide (x = Triple.mk p owlPropertyChainAxiom c))))
      = !(decide (x.s = p) && isCauseT x) := by
  by_cases hcs : x.s = p
  · by_cases hch2 : x.p = owlPropertyChainAxiom
    · have hxeq : x = Triple.mk p owlPropertyChainAxiom x.o := by
        rcases x with ⟨x1, x2, x3⟩
        simp only at hcs hch2
        rw [hcs, hch2]
      have hany : CH.any (fun c => decide (x = Triple.mk p owlPropertyChainAxiom c)) = true := by
        rw [List.any_eq_true]
        exact ⟨x.o, (hCH x.o).2 (hxeq ▸ hx), by rw [← hxeq]; simp⟩
      simp [hany, isCauseT, hcs, hch2]
    · have htrx : ¬(x.p = rdfType ∧ x.o = owlTransitiveProperty) := by
        rintro ⟨h1, h2⟩
        apply htr
        have : x = Triple.mk p rdfType owlTransitiveProperty := by
          rcases x with ⟨x1, x2, x3⟩
          simp only at hcs h1 h2
          rw [hcs, h1, h2]
        rw [← this]
        exact hx
      have hany : CH.any (fun c => decide (x = Triple.mk p owlPropertyChainAxiom c)) = false := by
        rw [List.any_eq_false]
        intro c _
        simp only [decide_eq_true_eq, decide_eq_false_iff_not]
        rintro rfl
        exact hch2 rfl
      have hcause : isCauseT x = false := by
        simp only [isCauseT, Bool.or_eq_false_iff, Bool.and_eq_false_iff]
        constructor
        · by_cases h1 : x.p = rdfType
          · right
            simp only [decide_eq_false_iff_not]
            intro h2
            exact htrx ⟨h1, h2⟩
          · left
            simp [h1]
        · simp [hch2]
      simp [hany, hcause]
  · have hany : CH.any (fun c => decide (x = Triple.mk p owlPropertyChainAxiom c)) = false := by
      rw [List.any_eq_false]
      intro c _
      simp only [decide_eq_true_eq, decide_eq_false_iff_not]
      rintro rfl
      exact hcs rfl
    simp [hany, hcs]

theorem removeForProp_eq_filter (g : RGraph) (p : Node) :
    (removeForProp g p).1
      = g.filter (fun t => !(decide (t.s = p) && isCauseT t)) := by
  rw [removeForProp]
  by_cases htr : Triple.mk p rdfType owlTransitiveProperty ∈ g
  · simp only [htr, if_true]
    generalize hCHdef : objectsOf (gRemove g (Triple.mk p rdfType owlTransitiveProperty))
        p owlPropertyChainAxiom = CH
    have hCH : ∀ c, c ∈ CH ↔ Triple.mk p owlPropertyChainAxiom c ∈
        gRemove g (Triple.mk p rdfType owlTransitiveProperty) := by
      intro c
      rw [← hCHdef, mem_objectsOf]
    rw [foldl_gRemove_chains, gRemove, List.filter_filter]
    refine List.filter_congr ?_
    intro x hx
    by_cases hxt : x = Triple.mk p rdfType owlTransitiveProperty
    · subst hxt
      simp [isCauseT]
    · have hx1 : x ∈ gRemove g (Triple.mk p rdfType owlTransitiveProperty) :=
        mem_gRemove.2 ⟨hx, hxt⟩
      have hCH' : ∀ c, c ∈ CH ↔ Triple.mk p owlPropertyChainAxiom c ∈
          gRemove g (Triple.mk p rdfType owlTransitiveProperty) := hCH
      have htr' : Triple.mk p rdfType owlTransitiveProperty ∉
          gRemove g (Triple.mk p rdfType owlTransitiveProperty) := by
        intro hm
        exact absurd rfl (mem_gRemove.1 hm).2
      have hpoint := causePointwise hCH' hx1 htr'
      rw [decide_eq_true (show x ≠ Triple.mk p rdfType owlTransitiveProperty from hxt),
        Bool.and_true]
      exact hpoint
  · simp only [htr, if_false]
    generalize hCHdef : objectsOf g p owlPropertyChainAxiom = CH
    have hCH : ∀ c, c ∈ CH ↔ Triple.mk p owlPropertyChainAxiom c ∈ g := by
      intro c
      rw [← hCHdef, mem_objectsOf]
    rw [foldl_gRemove_chains]
    refine List.filter_congr ?_
    intro x hx
    exact causePointwise hCH hx htr

theorem remove_eq_filter (props : List Node) (g : RGraph) :
    (remove_non_simple_causes g props).1
      = g.filter (fun t => !(decide (t.s ∈ props) && isCauseT t)) := by
  induction props generalizing g with
  | nil => simp [remove_non_simple_causes]
  | cons p rest ih =>
    show (remove_non_simple_causes (removeForProp g p).1 rest).1 = _
    rw [ih, removeForProp_eq_filter, List.filter_filter]
    refine List.filter_congr ?_
    intro x _
    by_cases hc : isCauseT x = true
    · by_cases h1 : x.s = p <;> by_cases h2 : x.s ∈ rest <;>
        simp [hc, h1, h2, List.mem_cons]
    · simp [Bool.eq_false_iff.2 hc]

theorem mem_remove_non_simple_causes {g : RGraph} {props : List Node} {t : Triple} :
    t ∈ (remove_non_simple_causes g props).1
      ↔ t ∈ g ∧ ¬(t.s ∈ props ∧ isCauseT t = true) := by
  rw [remove_eq_filter, List.mem_filter]
  simp only [Bool.not_eq_true', Bool.and_eq_false_iff, decide_eq_false_iff_not,
    Bool.not_eq_true]
  constructor
  · rintro ⟨hg, h | h⟩
    · exact ⟨hg, fun hc => h hc.1⟩
    · exact ⟨hg, fun hc => by rw [h] at hc; exact absurd hc.2 (by simp)⟩
  · rintro ⟨hg, h⟩
    refine ⟨hg, ?_⟩
    by_cases hm : t.s ∈ props
    · right
      cases hc : isCauseT t
      · rfl
      · exact absurd ⟨hm, hc⟩ h
    · left
      exact hm

theorem remove_sublist (props : List Node) (g : RGraph) :
    List.Sublist (remove_non_simple_causes g props).1 g := by
  rw [remove_eq_filter]
  exact List.filter_sublist g

/-- Splitting a filter over a disjunction of disjoint predicates. -/
theorem length_filter_or {l : List Triple} {P Q : Triple → Bool}
    (h : ∀ x ∈ l, ¬(P x = true ∧ Q x = true)) :
    (l.filter (fun x => P x || Q x)).length
      = (l.filter P).length + (l.filter Q).length := by
  induction l with
  | nil => rfl
  | cons a as ih =>
    have ih' := ih (fun x hx => h x (List.mem_cons_of_mem a hx))
    have ha := h a (List.mem_cons_self a as)
    by_cases hP : P a = true
    · have hQ : Q a = false := by
        cases hQ' : Q a
        · rfl
        · exact absurd ⟨hP, hQ'⟩ ha
      simp [List.filter_cons, hP, hQ, ih']
      omega
    · by_cases hQ : Q a = true
      · simp [List.filter_cons, Bool.eq_false_iff.2 hP, hQ, ih']
        omega
      · simp [List.filter_cons, Bool.eq_false_iff.2 hP, hQ, ih']

theorem length_filter_eq_one {l : List Triple} {a : Triple}
    (hd : l.Nodup) (ha : a ∈ l) :
    (l.filter (fun x => decide (x = a))).length = 1 := by
  induction l with
  | nil => exact absurd ha (List.not_mem_nil a)
  | cons b bs ih =>
    by_cases hab : b = a
    · subst hab
      have hnot : b ∉ bs := (List.nodup_cons.1 hd).1
      have hnil : bs.filter (fun x => decide (x = b)) = [] :=
        List.filter_eq_nil_iff.2 (fun x hx => by
          simp only [decide_eq_true_eq]
          rintro rfl
          exact hnot hx)
      simp [List.filter_cons, hnil]
    · have hmem : a ∈ bs := by
        rcases List.mem_cons.1 ha with h | h
        · exact absurd h.symm hab
        · exact h
      have hlen := ih (List.nodup_cons.1 hd).2 hmem
      simp [List.filter_cons, hab, hlen]

theorem filter_eq_nil_of_not_mem {l : List Triple} {a : Triple} (ha : a ∉ l) :
    l.filter (fun x => decide (x = a)) = [] :=
  List.filter_eq_nil_iff.2 (fun x hx => by
    simp only [decide_eq_true_eq]
    rintro rfl
    exact ha hx)

theorem objectsOf_length {g : RGraph} {s pr : Node} (hg : g.Nodup) :
    (objectsOf g s pr).length
      = (g.filter (fun t => decide (t.s = s) && decide (t.p = pr))).length := by
  rw [objectsOf]
  have hFn : (g.filter (fun t => decide (t.s = s) && decide (t.p = pr))).Nodup :=
    hg.filter _
  have hmapn : ((g.filter (fun t => decide (t.s = s) && decide (t.p = pr))).map
      Triple.o).Nodup := by
    refine List.Nodup.map_on ?_ hFn
    intro x hx y hy hxy
    obtain ⟨-, hx1, hx2⟩ := by simpa [Bool.and_eq_true] using List.mem_filter.1 hx
    obtain ⟨-, hy1, hy2⟩ := by simpa [Bool.and_eq_true] using List.mem_filter.1 hy
    rcases x with ⟨a1, a2, a3⟩
    rcases y with ⟨b1, b2, b3⟩
    simp only at hx1 hx2 hy1 hy2 hxy
    rw [hx1, hx2, hxy, hy1, hy2]
  rw [List.dedup_eq_self.2 hmapn, List.length_map]

theorem transP_eq (p : Node) (x : Triple) :
    (decide (x.s = p) && (decide (x.p = rdfType) && decide (x.o = owlTransitiveProperty)))
      = decide (x = Triple.mk p rdfType owlTransitiveProperty) := by
  rcases x with ⟨a, b, c⟩
  by_cases h1 : a = p <;> by_cases h2 : b = rdfType <;>
    by_cases h3 : c = owlTransitiveProperty <;>
      simp [h1, h2, h3, Triple.mk.injEq]

theorem objectsOf_chain_gRemove_trans (g : RGraph) (p : Node) :
    objectsOf (gRemove g (Triple.mk p rdfType owlTransitiveProperty)) p owlPropertyChainAxiom
      = objectsOf g p owlPropertyChainAxiom := by
  have hfil : (gRemove g (Triple.mk p rdfType owlTransitiveProperty)).filter
        (fun t => decide (t.s = p) && decide (t.p = owlPropertyChainAxiom))
      = g.filter (fun t => decide (t.s = p) && decide (t.p = owlPropertyChainAxiom)) := by
    rw [gRemove, List.filter_filter]
    refine List.filter_congr ?_
    intro x _
    by_cases h2 : x.p = owlPropertyChainAxiom
    · have hne : x ≠ Triple.mk p rdfType owlTransitiveProperty := by
        rintro rfl
        exact absurd (show rdfType = owlPropertyChainAxiom from h2) (by decide)
      simp [hne, h2]
    · simp [h2]
  rw [objectsOf, objectsOf, hfil]

theorem removeForProp_count (g : RGraph) (p : Node) (hg : g.Nodup) :
    (removeForProp g p).2
      = (g.filter (fun t => decide (t.s = p) && isCauseT t)).length := by
  have hsplit : ∀ x ∈ g, (decide (x.s = p) && isCauseT x)
      = ((decide (x = Triple.mk p rdfType owlTransitiveProperty)) ||
         (decide (x.s = p) && decide (x.p = owlPropertyChainAxiom))) := by
    intro x _
    rw [← transP_eq]
    simp only [isCauseT, Bool.and_or_distrib_left]
  rw [List.filter_congr hsplit]
  rw [length_filter_or (by
    intro x _
    rintro ⟨h1, h2⟩
    rw [decide_eq_true_eq] at h1
    rw [Bool.and_eq_true, decide_eq_true_eq, decide_eq_true_eq] at h2
    rw [h1] at h2
    exact absurd (show rdfType = owlPropertyChainAxiom from h2.2) (by decide))]
  rw [removeForProp]
  by_cases htr : Triple.mk p rdfType owlTransitiveProperty ∈ g
  · simp only [htr, if_true]
    rw [objectsOf_chain_gRemove_trans, objectsOf_length hg,
      length_filter_eq_one hg htr]
  · simp only [htr, if_false]
    rw [objectsOf_length hg, filter_eq_nil_of_not_mem htr]
    simp

theorem remove_count (props : List Node) (g : RGraph)
    (hg : g.Nodup) (hp : props.Nodup) :
    (remove_non_simple_causes g props).2
      = (g.filter (fun t => decide (t.s ∈ props) && isCauseT t)).length := by
  induction props generalizing g with
  | nil => simp [remove_non_simple_causes]
  | cons p rest ih =>
    obtain ⟨hpr, hrest⟩ := List.nodup_cons.1 hp
    show (removeForProp g p).2
        + (remove_non_simple_causes (removeForProp g p).1 rest).2 = _
    have hg1 : (removeForProp g p).1.Nodup := by
      rw [removeForProp_eq_filter]
      exact hg.filter _
    rw [removeForProp_count g p hg, ih (removeForProp g p).1 hg1 hrest]
    have hfil : (removeForProp g p).1.filter
          (fun t => decide (t.s ∈ rest) && isCauseT t)
        = g.filter (fun t => decide (t.s ∈ rest) && isCauseT t) := by
      rw [removeForProp_eq_filter, List.filter_filter]
      refine List.filter_congr ?_
      intro x _
      by_cases hm : x.s ∈ rest
      · have hxp : x.s ≠ p := by
          rintro he
          rw [he] at hm
          exact hpr hm
        simp [hm, hxp]
      · simp [hm]
    rw [hfil]
    have hsplit2 : ∀ x ∈ g, (decide (x.s ∈ p :: rest) && isCauseT x)
        = ((decide (x.s = p) && isCauseT x) ||
           (decide (x.s ∈ rest) && isCauseT x)) := by
      intro x _
      by_cases h1 : x.s = p <;> by_cases h2 : x.s ∈ rest <;>
        simp [h1, h2, List.mem_cons]
    rw [List.filter_congr hsplit2]
    rw [length_filter_or (by
      intro x _
      rintro ⟨h1, h2⟩
      rw [Bool.and_eq_true, decide_eq_true_eq] at h1 h2
      rw [h1.1] at h2
      exact hpr h2.1)]

theorem insertAbsent_nodup {l : List Node} {a : Node} (h : l.Nodup) :
    (insertAbsent l a).Nodup := by
  rw [insertAbsent]
  split
  · exact h
  · next hna =>
    refine List.Nodup.append h (List.nodup_singleton a) ?_
    intro x hx hx'
    rw [List.mem_singleton] at hx'
    exact hna (hx' ▸ hx)

theorem foldl_insertAbsent_nodup {qs : List Node} {seen nxt : List Node}
    (h : nxt.Nodup) :
    (qs.foldl (fun acc q => if q ∈ seen then acc else insertAbsent acc q) nxt).Nodup := by
  induction qs generalizing nxt with
  | nil => exact h
  | cons q rest ih =>
    show (rest.foldl _ (if q ∈ seen then nxt else insertAbsent nxt q)).Nodup
    split
    · exact ih h
    · exact ih (insertAbsent_nodup h)

theorem listUnion_nodup {a b : List Node} (ha : a.Nodup) (hb : b.Nodup) :
    (listUnion a b).Nodup := by
  refine List.Nodup.append ha (hb.filter _) ?_
  intro x hx hx'
  obtain ⟨-, hx2⟩ := List.mem_filter.1 hx'
  rw [decide_eq_true_eq] at hx2
  exact hx2 hx

theorem listUnion_sub_left {a b : List Node} : ∀ y ∈ a, y ∈ listUnion a b :=
  fun y hy => List.mem_append.2 (Or.inl hy)

theorem closureScan_props (g : RGraph) (limit : Nat) :
    ∀ frontier seen nxt, seen.Nodup → nxt.Nodup →
      (∀ full, closureScan g limit frontier seen nxt = Except.error full →
        full.Nodup ∧ (∀ x ∈ seen, x ∈ full)) ∧
      (∀ s2 n2, closureScan g limit frontier seen nxt = Except.ok (s2, n2) →
        (s2.Nodup ∧ n2.Nodup) ∧ (∀ x ∈ seen, x ∈ s2)) := by
  intro frontier
  induction frontier with
  | nil =>
    intro seen nxt hs hn
    refine ⟨fun full h => by simp [closureScan] at h, fun s2 n2 h => ?_⟩
    rw [closureScan] at h
    obtain ⟨rfl, rfl⟩ : seen = s2 ∧ nxt = n2 := by
      injection h with h'
      exact ⟨congrArg Prod.fst h', congrArg Prod.snd h'⟩
    exact ⟨⟨hs, hn⟩, fun x hx => hx⟩
  | cons p rest ih =>
    intro seen nxt hs hn
    rw [closureScan]
    by_cases hps : p ∈ seen
    · simpa [hps] using ih seen nxt hs hn
    · simp only [hps, if_false]
      have hs' : (seen ++ [p]).Nodup := by
        refine List.Nodup.append hs (List.nodup_singleton p) ?_
        intro x hx hx'
        rw [List.mem_singleton] at hx'
        exact hps (hx' ▸ hx)
      have hn' : ((((inverse_props g p ++ super_props g p ++ sub_props g p).dedup)).foldl
          (fun acc q => if q ∈ seen ++ [p] then acc else insertAbsent acc q) nxt).Nodup :=
        foldl_insertAbsent_nodup hn
      split
      · next hlim =>
        refine ⟨fun full h => ?_, fun s2 n2 h => by simp at h⟩
        injection h with h'
        rw [← h']
        refine ⟨listUnion_nodup hs' hn', fun x hx => ?_⟩
        exact listUnion_sub_left x (List.mem_append.2 (Or.inl hx))
      · next hlim =>
        have hrec := ih (seen ++ [p]) _ hs' hn'
        refine ⟨fun full h => ?_, fun s2 n2 h => ?_⟩
        · obtain ⟨hfn, hsub⟩ := hrec.1 full h
          exact ⟨hfn, fun x hx => hsub x (List.mem_append.2 (Or.inl hx))⟩
        · obtain ⟨hnd, hsub⟩ := hrec.2 s2 n2 h
          exact ⟨hnd, fun x hx => hsub x (List.mem_append.2 (Or.inl hx))⟩

theorem closureRounds_props (g : RGraph) (limit : Nat) :
    ∀ r frontier seen, seen.Nodup →
      (closureRounds g limit r frontier seen).Nodup ∧
      (∀ x ∈ seen, x ∈ closureRounds g limit r frontier seen) := by
  intro r
  induction r with
  | zero => exact fun frontier seen hs => ⟨hs, fun x hx => hx⟩
  | succ r ih =>
    intro frontier seen hs
    rw [closureRounds]
    cases hscan : closureScan g limit frontier seen [] with
    | error full =>
      obtain ⟨hfn, hsub⟩ := (closureScan_props g limit frontier seen [] hs
        List.nodup_nil).1 full hscan
      exact ⟨hfn, hsub⟩
    | ok pair =>
      rcases pair with ⟨s2, n2⟩
      obtain ⟨⟨hs2, -⟩, hsub⟩ := (closureScan_props g limit frontier seen [] hs
        List.nodup_nil).2 s2 n2 hscan
      by_cases hn2 : n2 = []
      · simpa [hn2] using ⟨hs2, hsub⟩
      · simp only [hn2, if_false]
        obtain ⟨hnd, hsub2⟩ := ih n2 s2 hs2
        exact ⟨hnd, fun x hx => hsub2 x (hsub x hx)⟩

theorem closure_nodup (g : RGraph) (root : Node) (depth limit : Nat) :
    (related_property_closure g root depth limit).Nodup :=
  (closureRounds_props g limit (depth + 1) [root] [] List.nodup_nil).1

theorem root_mem_closure (g : RGraph) (root : Node) (depth limit : Nat) :
    root ∈ related_property_closure g root depth limit := by
  rw [related_property_closure, closureRounds]
  have hscan := closureScan_props g limit [root] [] [] List.nodup_nil List.nodup_nil
  cases hscan2 : closureScan g limit [root] [] [] with
  | error full =>
    rw [closureScan] at hscan2
    simp only [List.not_mem_nil, if_false] at hscan2
    split at hscan2
    · injection hscan2 with h'
      rw [← h']
      exact listUnion_sub_left root (by simp)
    · rw [closureScan] at hscan2
      simp at hscan2
  | ok pair =>
    rcases pair with ⟨s2, n2⟩
    have hroot : root ∈ s2 := by
      rw [closureScan] at hscan2
      simp only [List.not_mem_nil, if_false] at hscan2
      split at hscan2
      · simp at hscan2
      · rw [closureScan] at hscan2
        injection hscan2 with h1
        have h2 : ([] ++ [root] : List Node) = s2 := congrArg Prod.fst h1
        rw [← h2]
        simp
    by_cases hn2 : n2 = []
    · simpa [hn2] using hroot
    · simp only [hn2, if_false]
      exact (closureRounds_props g limit _ n2 s2 (by
        exact ((closureScan_props g limit [root] [] [] List.nodup_nil
          List.nodup_nil).2 s2 n2 hscan2).1.1)).2 root hroot

/-- Claim C4: for a non-simple-property error citing `iri`, the resolver
computes the bounded closure (depth 2, cutoff 500) of the property under
inverse/sub/super relations, and removes exactly the transitive-type and
property-chain triples whose subject lies in that closure: membership in
the output graph is characterized, every triple whose subject is outside
the closure survives, the cited property is in its own closure so its
transitive-type triple (if present) is removed, and the returned count
equals the number of triples removed. -/
theorem non_simple_resolver_frame (g : RGraph) (iri : String) (hg : g.Nodup) :
    Node.uri iri ∈ related_property_closure g (Node.uri iri) 2 500 ∧
    (∀ t, t ∈ (deterministic_fix_non_simple g iri).2 ↔
      t ∈ g ∧ ¬(t.s ∈ related_property_closure g (Node.uri iri) 2 500 ∧
        isCauseT t = true)) ∧
    (deterministic_fix_non_simple g iri).1
      = (g.filter (fun t =>
          decide (t.s ∈ related_property_closure g (Node.uri iri) 2 500) &&
            isCauseT t)).length ∧
    (Triple.mk (Node.uri iri) rdfType owlTransitiveProperty ∈ g →
      Triple.mk (Node.uri iri) rdfType owlTransitiveProperty
        ∉ (deterministic_fix_non_simple g iri).2) := by
  refine ⟨root_mem_closure g (Node.uri iri) 2 500,
    fun t => mem_remove_non_simple_causes,
    remove_count _ g hg (closure_nodup g (Node.uri iri) 2 500),
    fun htr hmem => ?_⟩
  have h := (@mem_remove_non_simple_causes g
    (related_property_closure g (Node.uri iri) 2 500)
    (Triple.mk (Node.uri iri) rdfType owlTransitiveProperty)).1 hmem
  exact h.2 ⟨root_mem_closure g (Node.uri iri) 2 500, by simp [isCauseT]⟩

/-- Synthetic graph of the spec scenario: P transitive with inverse Q,
and an unrelated transitive property R. -/
def resolverWitnessGraph : RGraph :=
  [⟨Node.uri "http://ex/P", rdfType, owlTransitiveProperty⟩,
   ⟨Node.uri "http://ex/Q", owlInverseOf, Node.uri "http://ex/P"⟩,
   ⟨Node.uri "http://ex/R", rdfType, owlTransitiveProperty⟩]

/-- Witness for C4 at the spec scenario graph. -/
theorem non_simple_resolver_frame_witness :
    Node.uri "http://ex/P" ∈ related_property_closure resolverWitnessGraph
        (Node.uri "http://ex/P") 2 500 ∧
    (∀ t, t ∈ (deterministic_fix_non_simple resolverWitnessGraph "http://ex/P").2 ↔
      t ∈ resolverWitnessGraph ∧
        ¬(t.s ∈ related_property_closure resolverWitnessGraph
            (Node.uri "http://ex/P") 2 500 ∧ isCauseT t = true)) ∧
    (deterministic_fix_non_simple resolverWitnessGraph "http://ex/P").1
      = (resolverWitnessGraph.filter (fun t =>
          decide (t.s ∈ related_property_closure resolverWitnessGraph
            (Node.uri "http://ex/P") 2 500) && isCauseT t)).length ∧
    (Triple.mk (Node.uri "http://ex/P") rdfType owlTransitiveProperty
        ∈ resolverWitnessGraph →
      Triple.mk (Node.uri "http://ex/P") rdfType owlTransitiveProperty
        ∉ (deterministic_fix_non_simple resolverWitnessGraph "http://ex/P").2) :=
  non_simple_resolver_frame resolverWitnessGraph "http://ex/P" (by decide)

/-! ## Claim C5: the deterministic reasoner-orchestration loop

`run_deterministic_pipeline` serializes, runs HermiT, and loops.  The
external reasoner run and the regex classification
(`classify_non_simple_issue`) are abstracted into per-iteration
observations: the tri-state `ok` interpretation of `run_hermit` and the
optional captured property IRI of a matched non-simple-property
pattern. -/

structure HermitObs where
  ok : Option Bool
  issue : Option String

inductive DetStop where
  | satisfiable
  | inconsistent
  | noPatternMatch
  | noProgress
  | capReached
deriving DecidableEq

/-- The bounded HermiT loop of `run_deterministic_pipeline`, with the
remaining iteration budget as fuel; returns the final graph, the number
of HermiT runs performed, and why the loop stopped. -/
def detLoop (env : Nat → HermitObs) : Nat → RGraph → Nat → RGraph × Nat × DetStop
  | 0, g, _ => (g, 0, DetStop.capReached)
  | fuel + 1, g, loopIdx =>
    match (env loopIdx).ok with
    | some true => (g, 1, DetStop.satisfiable)
    | some false => (g, 1, DetStop.inconsistent)
    | none =>
      match (env loopIdx).issue with
      | none => (g, 1, DetStop.noPatternMatch)
      | some iri =>
        let r := deterministic_fix_non_simple g iri
        if r.1 = 0 then (r.2, 1, DetStop.noProgress)
        else
          let res := detLoop env fuel r.2 (loopIdx + 1)
          (res.1, res.2.1 + 1, res.2.2)

/-- Embedding of the loop of `run_deterministic_pipeline` (the
surrounding normalizer passes are separate functions above). -/
def run_deterministic_pipeline (env : Nat → HermitObs) (g : RGraph)
    (max_loops : Nat) : RGraph × Nat × DetStop :=
  detLoop env max_loops g 1

theorem fix_non_simple_decreases (g : RGraph) (iri : String) (hg : g.Nodup)
    (h : 0 < (deterministic_fix_non_simple g iri).1) :
    causeCount (deterministic_fix_non_simple g iri).2 < causeCount g := by
  have hcnt : (deterministic_fix_non_simple g iri).1
      = (g.filter (fun t =>
          decide (t.s ∈ related_property_closure g (Node.uri iri) 2 500) &&
            isCauseT t)).length :=
    remove_count _ g hg (closure_nodup g (Node.uri iri) 2 500)
  rw [hcnt] at h
  obtain ⟨t, htmem⟩ := List.exists_mem_of_ne_nil _
    (List.ne_nil_of_length_pos h)
  obtain ⟨htg, htP⟩ := List.mem_filter.1 htmem
  rw [Bool.and_eq_true, decide_eq_true_eq] at htP
  have htnot : t ∉ (deterministic_fix_non_simple g iri).2 := by
    intro hmem
    exact ((mem_remove_non_simple_causes).1 hmem).2 ⟨htP.1, htP.2⟩
  have hsub : List.Sublist ((deterministic_fix_non_simple g iri).2.filter isCauseT)
      (g.filter isCauseT) :=
    List.Sublist.filter _ (remove_sublist _ g)
  have hle : causeCount (deterministic_fix_non_simple g iri).2 ≤ causeCount g :=
    hsub.length_le
  rcases Nat.lt_or_ge (causeCount (deterministic_fix_non_simple g iri).2)
      (causeCount g) with hlt | hge
  · exact hlt
  · exfalso
    have heq : causeCount (deterministic_fix_non_simple g iri).2 = causeCount g :=
      Nat.le_antisymm hle hge
    have := hsub.eq_of_length heq
    have htin : t ∈ (deterministic_fix_non_simple g iri).2.filter isCauseT := by
      rw [this]
      exact List.mem_filter.2 ⟨htg, htP.2⟩
    exact htnot (List.mem_filter.1 htin).1

theorem detLoop_runs_le_fuel (env : Nat → HermitObs) :
    ∀ fuel g idx, (detLoop env fuel g idx).2.1 ≤ fuel := by
  intro fuel
  induction fuel with
  | zero => intro g idx; exact Nat.le_refl 0
  | succ fuel ih =>
    intro g idx
    rw [detLoop]
    rcases hok : (env idx).ok with _ | b
    · rcases hiss : (env idx).issue with _ | iri
      · simp
      · simp only
        split
        · simp
        · exact Nat.succ_le_succ (ih _ _)
    · cases b <;> simp

theorem detLoop_nodup_runs_le_causes (env : Nat → HermitObs) :
    ∀ fuel g idx, g.Nodup → (detLoop env fuel g idx).2.1 ≤ causeCount g + 1 := by
  intro fuel
  induction fuel with
  | zero => intro g idx _; exact Nat.zero_le _
  | succ fuel ih =>
    intro g idx hg
    rw [detLoop]
    rcases hok : (env idx).ok with _ | b
    · rcases hiss : (env idx).issue with _ | iri
      · simp
      · simp only
        split
        · simp
        · next hne =>
          have hpos : 0 < (deterministic_fix_non_simple g iri).1 :=
            Nat.pos_of_ne_zero hne
          have hnd : (deterministic_fix_non_simple g iri).2.Nodup := by
            show (remove_non_simple_causes g _).1.Nodup
            rw [remove_eq_filter]
            exact hg.filter _
          have hdec := fix_non_simple_decreases g iri hg hpos
          have hrec := ih (deterministic_fix_non_simple g iri).2 (idx + 1) hnd
          simp only
          omega
    · cases b <;> simp

/-- Claim C5: the orchestration loop performs at most `max_loops` HermiT
runs; it also performs at most `causeCount g + 1` runs, because every
productive iteration strictly decreases the set of non-simple causes —
so termination is independent of the cap; and it stops immediately when
the verdict is satisfiable or inconsistent, when no non-simple-property
pattern matches, or when the resolver removes zero triples. -/
theorem deterministic_pipeline_termination (env : Nat → HermitObs)
    (g : RGraph) (max_loops : Nat) (hg : g.Nodup) :
    ((run_deterministic_pipeline env g max_loops).2.1 ≤ max_loops) ∧
    ((run_deterministic_pipeline env g max_loops).2.1 ≤ causeCount g + 1) ∧
    (∀ h : RGraph, ∀ iri, h.Nodup → 0 < (deterministic_fix_non_simple h iri).1 →
      causeCount (deterministic_fix_non_simple h iri).2 < causeCount h) ∧
    (1 ≤ max_loops →
      ((env 1).ok = some true →
        run_deterministic_pipeline env g max_loops = (g, 1, DetStop.satisfiable)) ∧
      ((env 1).ok = some false →
        run_deterministic_pipeline env g max_loops = (g, 1, DetStop.inconsistent)) ∧
      ((env 1).ok = none → (env 1).issue = none →
        run_deterministic_pipeline env g max_loops = (g, 1, DetStop.noPatternMatch)) ∧
      (∀ iri, (env 1).ok = none → (env 1).issue = some iri →
        (deterministic_fix_non_simple g iri).1 = 0 →
        run_deterministic_pipeline env g max_loops
          = ((deterministic_fix_non_simple g iri).2, 1, DetStop.noProgress))) := by
  refine ⟨detLoop_runs_le_fuel env max_loops g 1,
    detLoop_nodup_runs_le_causes env max_loops g 1 hg,
    fun h iri hnd hpos => fix_non_simple_decreases h iri hnd hpos,
    fun hcap => ?_⟩
  obtain ⟨fuel, rfl⟩ : ∃ fuel, max_loops = fuel + 1 :=
    ⟨max_loops - 1, by omega⟩
  refine ⟨fun hok => ?_, fun hok => ?_, fun hok hiss => ?_, fun iri hok hiss hzero => ?_⟩
  · rw [run_deterministic_pipeline, detLoop, hok]
  · rw [run_deterministic_pipeline, detLoop, hok]
  · rw [run_deterministic_pipeline, detLoop, hok, hiss]
  · rw [run_deterministic_pipeline, detLoop, hok, hiss]
    simp [hzero]

/-- Witness for C5: a constant environment reporting satisfiability
stops the loop after one run on a concrete one-triple graph. -/
theorem deterministic_pipeline_termination_witness :
    (run_deterministic_pipeline (fun _ => ⟨some true, none⟩)
        [⟨Node.uri "http://ex/P", rdfType, owlTransitiveProperty⟩] 30).2.1 ≤ 30 ∧
    (run_deterministic_pipeline (fun _ => ⟨some true, none⟩)
        [⟨Node.uri "http://ex/P", rdfType, owlTransitiveProperty⟩] 30
      = ([⟨Node.uri "http://ex/P", rdfType, owlTransitiveProperty⟩], 1,
         DetStop.satisfiable)) := by
  have h := deterministic_pipeline_termination (fun _ => ⟨some true, none⟩)
    [⟨Node.uri "http://ex/P", rdfType, owlTransitiveProperty⟩] 30 (by decide)
  exact ⟨h.1, (h.2.2.2 (by decide)).1 rfl⟩

/-! ## JSON values and the patch schema

JSON values as produced by `json.loads`; objects are key/value lists. -/

inductive JsonVal where
  | null : JsonVal
  | bool (b : Bool) : JsonVal
  | num (n : Int) : JsonVal
  | str (s : String) : JsonVal
  | arr (xs : List JsonVal) : JsonVal
  | obj (fields : List (String × JsonVal)) : JsonVal

/-- Dictionary lookup (`d.get(k)` / `d[k]`; parsed JSON has unique keys). -/
def jlookup (fields : List (String × JsonVal)) (k : String) : Option JsonVal :=
  match fields.find? (fun kv => kv.1 == k) with
  | some kv => some kv.2
  | none => none

/-- Python truthiness of an optional JSON value (`if dt:`). -/
def pyTruthy : Option JsonVal → Bool
  | none => false
  | some JsonVal.null => false
  | some (JsonVal.bool b) => b
  | some (JsonVal.num n) => decide (n ≠ 0)
  | some (JsonVal.str s) => decide (s ≠ "")
  | some (JsonVal.arr []) => false
  | some (JsonVal.arr (_ :: _)) => true
  | some (JsonVal.obj []) => false
  | some (JsonVal.obj (_ :: _)) => true

/-- Python `str()` of a JSON value, as used by `Literal(...)`/`URIRef(...)`
on non-string payloads; the exact rendering of non-string payloads is
approximate (no claim depends on it), string payloads are exact. -/
def pyStr : JsonVal → String
  | JsonVal.str s => s
  | JsonVal.null => "None"
  | JsonVal.bool true => "True"
  | JsonVal.bool false => "False"
  | JsonVal.num n => toString n
  | JsonVal.arr _ => "[...]"
  | JsonVal.obj _ => "(dict)"

/-- Embedding of `_to_node`: decodes a patch triple endpoint.  A dict
with a `literal` key becomes a literal (datatype wins over language
tag); a string becomes a blank node when prefixed `_:`, an IRI when it
starts with `http://` or `https://`, and a plain literal otherwise;
everything else raises. -/
def _to_node (x : JsonVal) : Except String Node :=
  match x with
  | JsonVal.obj fields =>
    match jlookup fields "literal" with
    | some lit =>
      let dt := jlookup fields "datatype"
      let lang := jlookup fields "lang"
      if pyTruthy dt then
        Except.ok (Node.lit (pyStr lit) (some (pyStr (dt.getD JsonVal.null))) none)
      else if pyTruthy lang then
        Except.ok (Node.lit (pyStr lit) none (some (pyStr (lang.getD JsonVal.null))))
      else Except.ok (Node.lit (pyStr lit) none none)
    | none => Except.error "Unsupported node"
  | JsonVal.str s =>
    if strStarts s "_:" then Except.ok (Node.bnode (String.mk (s.toList.drop 2)))
    else if strStarts s "http://" || strStarts s "https://" then
      Except.ok (Node.uri s)
    else Except.ok (Node.lit s none none)
  | _ => Except.error "Unsupported node"

/-- The `for k in ("s","p","o")` presence loop: first missing key, if
any. -/
def firstMissingKey (tf : List (String × JsonVal)) : Option String :=
  if (jlookup tf "s").isNone then some "s"
  else if (jlookup tf "p").isNone then some "p"
  else if (jlookup tf "o").isNone then some "o"
  else none

/-- Embedding of `validate_patch_one_op`. -/
def validate_patch_one_op (patch : JsonVal) : Except String Unit :=
  match patch with
  | JsonVal.obj fields =>
    (match jlookup fields "operations" with
     | some (JsonVal.arr [op]) =>
       (match op with
        | JsonVal.obj opf =>
          (match jlookup opf "op" with
           | some (JsonVal.str t) =>
             if t = "delete_triple" ∨ t = "add_triple" then
               match jlookup opf "triple" with
               | some (JsonVal.obj tf) =>
                 (match firstMissingKey tf with
                  | some k => Except.error ("Triple missing key: " ++ k)
                  | none => Except.ok ())
               | _ => Except.error "Missing triple for add/delete."
             else if t = "replace_triple" then
               match jlookup opf "old", jlookup opf "new" with
               | some (JsonVal.obj oldf), some (JsonVal.obj newf) =>
                 (match firstMissingKey oldf with
                  | some k => Except.error ("old triple missing key: " ++ k)
                  | none =>
                    match firstMissingKey newf with
                    | some k => Except.error ("new triple missing key: " ++ k)
                    | none => Except.ok ())
               | _, _ => Except.error "replace_triple requires old and new."
             else Except.error ("Unsupported operation: " ++ t)
           | _ => Except.error "Unsupported operation: not a string")
        | _ => Except.error "Operation must be an object.")
     | some (JsonVal.arr _) => Except.error "Patch must contain exactly 1 operation."
     | _ => Except.error "Patch must contain exactly 1 operation.")
  | _ => Except.error "Patch must be a JSON object."

/-- Embedding of `apply_patch_to_ttl`: validates, then applies the one
operation to the loaded snapshot graph; the returned graph models the
freshly written output snapshot, and an error means no snapshot is
written. -/
def apply_patch_to_ttl (g : RGraph) (patch : JsonVal) : Except String RGraph := do
  validate_patch_one_op patch
  match patch with
  | JsonVal.obj fields =>
    match jlookup fields "operations" with
    | some (JsonVal.arr (op :: _)) =>
      match op with
      | JsonVal.obj opf =>
        (match jlookup opf "op" with
         | some (JsonVal.str t) =>
           if t = "delete_triple" ∨ t = "add_triple" then
             match jlookup opf "triple" with
             | some (JsonVal.obj tf) => do
               let s ← _to_node ((jlookup tf "s").getD JsonVal.null)
               let p ← _to_node ((jlookup tf "p").getD JsonVal.null)
               let o ← _to_node ((jlookup tf "o").getD JsonVal.null)
               if t = "delete_triple" then pure (gRemove g (Triple.mk s p o))
               else pure (gAdd g (Triple.mk s p o))
             | _ => Except.error "invalid patch shape"
           else
             match jlookup opf "old", jlookup opf "new" with
             | some (JsonVal.obj oldf), some (JsonVal.obj newf) => do
               let os ← _to_node ((jlookup oldf "s").getD JsonVal.null)
               let op2 ← _to_node ((jlookup oldf "p").getD JsonVal.null)
               let oo ← _to_node ((jlookup oldf "o").getD JsonVal.null)
               let ns ← _to_node ((jlookup newf "s").getD JsonVal.null)
               let np2 ← _to_node ((jlookup newf "p").getD JsonVal.null)
               let no2 ← _to_node ((jlookup newf "o").getD JsonVal.null)
               pure (gAdd (gRemove g (Triple.mk os op2 oo)) (Triple.mk ns np2 no2))
             | _, _ => Except.error "invalid patch shape"
         | _ => Except.error "invalid patch shape")
      | _ => Except.error "invalid patch shape"
    | _ => Except.error "invalid patch shape"
  | _ => Except.error "invalid patch shape"

/-- Spec-side: all three triple keys are present. -/
def TripleKeysPresent (tf : List (String × JsonVal)) : Prop :=
  (jlookup tf "s").isSome ∧ (jlookup tf "p").isSome ∧ (jlookup tf "o").isSome

/-- Spec-side shape of an acceptable Patch, following the claim: an
object whose `operations` field is a list with exactly one operation
object, whose `op` is one of the three kinds, with a complete `triple`
object for add/delete or complete `old` and `new` objects for
replace. -/
def GoodPatchSpec (patch : JsonVal) : Prop :=
  ∃ fields op, patch = JsonVal.obj fields ∧
    jlookup fields "operations" = some (JsonVal.arr [op]) ∧
    ∃ opf, op = JsonVal.obj opf ∧
      ∃ t, jlookup opf "op" = some (JsonVal.str t) ∧
        (((t = "delete_triple" ∨ t = "add_triple") ∧
          ∃ tf, jlookup opf "triple" = some (JsonVal.obj tf) ∧ TripleKeysPresent tf) ∨
         (t = "replace_triple" ∧
          ∃ oldf newf, jlookup opf "old" = some (JsonVal.obj oldf) ∧
            jlookup opf "new" = some (JsonVal.obj newf) ∧
            TripleKeysPresent oldf ∧ TripleKeysPresent newf))

theorem firstMissingKey_none_iff {tf : List (String × JsonVal)} :
    firstMissingKey tf = none ↔ TripleKeysPresent tf := by
  rw [firstMissingKey, TripleKeysPresent]
  rcases hs : jlookup tf "s" with _ | vs <;>
    rcases hp : jlookup tf "p" with _ | vp <;>
      rcases ho : jlookup tf "o" with _ | vo <;>
        simp [Option.isNone, Option.isSome]

theorem validate_ok_iff (patch : JsonVal) :
    validate_patch_one_op patch = Except.ok () ↔ GoodPatchSpec patch := by
  constructor
  · intro h
    rcases patch with _ | b | n | s | xs | fields <;>
      try (simp [validate_patch_one_op] at h)
    rcases hops : jlookup fields "operations" with _ | v
    · simp [validate_patch_one_op, hops] at h
    · rcases v with _ | b | n | s | xs | f2 <;>
        try (simp [validate_patch_one_op, hops] at h)
      rcases xs with _ | ⟨op, rest⟩
      · simp [validate_patch_one_op, hops] at h
      · rcases rest with _ | ⟨op2, rest2⟩
        · rcases op with _ | b | n | s | xs2 | opf <;>
            try (simp [validate_patch_one_op, hops] at h)
          rcases hopk : jlookup opf "op" with _ | tv
          · simp [validate_patch_one_op, hops, hopk] at h
          · rcases tv with _ | b | n | t | xs3 | f3 <;>
              try (simp [validate_patch_one_op, hops, hopk] at h)
            by_cases hda : t = "delete_triple" ∨ t = "add_triple"
            · rcases htr : jlookup opf "triple" with _ | trv
              · simp [validate_patch_one_op, hops, hopk, hda, htr] at h
              · rcases trv with _ | b | n | s | xs4 | tf <;>
                  try (simp [validate_patch_one_op, hops, hopk, hda, htr] at h)
                rcases hmk : firstMissingKey tf with _ | k
                · exact ⟨fields, JsonVal.obj opf, rfl, hops, opf, rfl, t, hopk,
                    Or.inl ⟨hda, tf, htr, firstMissingKey_none_iff.1 hmk⟩⟩
                · simp [validate_patch_one_op, hops, hopk, hda, htr, hmk] at h
            · by_cases hrep : t = "replace_triple"
              · rcases hold : jlookup opf "old" with _ | ov
                · simp [validate_patch_one_op, hops, hopk, hda, hrep, hold] at h
                · rcases hnew : jlookup opf "new" with _ | nv
                  · simp [validate_patch_one_op, hops, hopk, hda, hrep, hold, hnew] at h
                  · rcases ov with _ | b | n | s | xs5 | oldf <;>
                      try (simp [validate_patch_one_op, hops, hopk, hda, hrep,
                        hold, hnew] at h)
                    all_goals rcases nv with _ | b2 | n2 | s2 | xs6 | newf <;>
                      try (simp [validate_patch_one_op, hops, hopk, hda, hrep,
                        hold, hnew] at h)
                    rcases hmo : firstMissingKey oldf with _ | k
                    · rcases hmn : firstMissingKey newf with _ | k2
                      · exact ⟨fields, JsonVal.obj opf, rfl, hops, opf, rfl, t, hopk,
                          Or.inr ⟨hrep, oldf, newf, hold, hnew,
                            firstMissingKey_none_iff.1 hmo,
                            firstMissingKey_none_iff.1 hmn⟩⟩
                      · simp [validate_patch_one_op, hops, hopk, hda, hrep, hold,
                          hnew, hmo, hmn] at h
                    · simp [validate_patch_one_op, hops, hopk, hda, hrep, hold,
                        hnew, hmo] at h
              · simp [validate_patch_one_op, hops, hopk, hda, hrep] at h
        · simp [validate_patch_one_op, hops] at h
  · rintro ⟨fields, op, rfl, hops, opf, rfl, t, hopk, hcase⟩
    rcases hcase with ⟨hda, tf, htr, hkeys⟩ | ⟨hrep, oldf, newf, hold, hnew, hko, hkn⟩
    · simp [validate_patch_one_op, hops, hopk, hda, htr,
        firstMissingKey_none_iff.2 hkeys]
    · have hda : ¬(t = "delete_triple" ∨ t = "add_triple") := by
        rw [hrep]
        rintro (h | h) <;> simp at h
      simp [validate_patch_one_op, hops, hopk, hda, hrep, hold, hnew,
        firstMissingKey_none_iff.2 hko, firstMissingKey_none_iff.2 hkn]

/-- Claim C2: applying a patch first validates the single-operation
schema — acceptance is exactly the spec shape (one operation of one of
the three kinds with complete triple fields) — and any patch rejected by
validation makes the application function fail with the same error
before any graph mutation, so no output snapshot graph is produced (in
particular a two-operation patch is rejected this way). -/
theorem patch_validation_rejects (patch : JsonVal) (g : RGraph) :
    (validate_patch_one_op patch = Except.ok () ↔ GoodPatchSpec patch) ∧
    (∀ e, validate_patch_one_op patch = Except.error e →
      apply_patch_to_ttl g patch = Except.error e) := by
  refine ⟨validate_ok_iff patch, fun e he => ?_⟩
  simp only [apply_patch_to_ttl, he]
  rfl

/-- A patch carrying two operations (the spec scenario). -/
def twoOpPatch : JsonVal :=
  JsonVal.obj
    [("operations", JsonVal.arr
        [JsonVal.obj
           [("op", JsonVal.str "delete_triple"),
            ("triple", JsonVal.obj
               [("s", JsonVal.str "http://ex/a"),
                ("p", JsonVal.str "http://ex/b"),
                ("o", JsonVal.str "http://ex/c")])],
         JsonVal.obj
           [("op", JsonVal.str "add_triple"),
            ("triple", JsonVal.obj
               [("s", JsonVal.str "http://ex/a"),
                ("p", JsonVal.str "http://ex/b"),
                ("o", JsonVal.str "http://ex/d")])]]),
     ("rationale", JsonVal.str "two operations")]

/-- Witness for C2: the two-operation patch is rejected and application
fails without producing a graph. -/
theorem patch_validation_rejects_witness :
    apply_patch_to_ttl [] twoOpPatch
      = Except.error "Patch must contain exactly 1 operation." :=
  (patch_validation_rejects twoOpPatch []).2
    "Patch must contain exactly 1 operation." rfl

/-- Claim C9: decoding a string patch endpoint maps a `_:`-prefixed
string to a blank node, an `http://`/`https://` string to an IRI, and
any other string — urn:, file:, relative IRIs included — silently to a
plain string literal; an error is raised exactly for values that are
neither strings nor objects carrying a `literal` key. -/
theorem to_node_characterization :
    (∀ s : String, strStarts s "_:" = true →
        _to_node (JsonVal.str s)
          = Except.ok (Node.bnode (String.mk (s.toList.drop 2)))) ∧
    (∀ s : String, strStarts s "_:" = false →
        (strStarts s "http://" = true ∨ strStarts s "https://" = true) →
        _to_node (JsonVal.str s) = Except.ok (Node.uri s)) ∧
    (∀ s : String, strStarts s "_:" = false → strStarts s "http://" = false →
        strStarts s "https://" = false →
        _to_node (JsonVal.str s) = Except.ok (Node.lit s none none)) ∧
    (∀ x : JsonVal, (∃ e, _to_node x = Except.error e) ↔
        ((∀ s, x ≠ JsonVal.str s) ∧
         (∀ fields, x = JsonVal.obj fields → jlookup fields "literal" = none))) := by
  refine ⟨fun s hb => by simp [_to_node, hb],
    fun s hb hh => by
      rcases hh with hh | hh <;> simp [_to_node, hb, hh],
    fun s hb h1 h2 => by simp [_to_node, hb, h1, h2],
    fun x => ?_⟩
  rcases x with _ | b | n | s | xs | fields
  · simp [_to_node]
  · simp [_to_node]
  · simp [_to_node]
  · constructor
    · rintro ⟨e, he⟩
      rw [_to_node] at he
      split_ifs at he
    · rintro ⟨hstr, -⟩
      exact absurd rfl (hstr s)
  · simp [_to_node]
  · rcases hlit : jlookup fields "literal" with _ | lv
    · simp [_to_node, hlit]
    · constructor
      · rintro ⟨e, he⟩
        simp only [_to_node, hlit] at he
        split_ifs at he
      · rintro ⟨-, hobj⟩
        rw [hobj fields rfl] at hlit
        exact absurd hlit (by simp)

/-- Witness for C9: a `urn:` scheme IRI string decodes to a plain string
literal rather than an IRI node. -/
theorem to_node_characterization_witness :
    _to_node (JsonVal.str "urn:uuid:1234")
      = Except.ok (Node.lit "urn:uuid:1234" none none) :=
  to_node_characterization.2.2.1 "urn:uuid:1234" (by decide) (by decide) (by decide)

/-! ## A model of `json.loads` and the patch-reply fallback regex

`openrouter_chat_json` parses the model reply with `json.loads`, falling
back to the greedy DOTALL regex `(\x7b.*\x7d)` — the span from the first
opening brace to the last closing brace.  `json.loads` is modelled by a
recursive-descent JSON reader over the character list (string escapes
are modelled for the common cases; numbers as integers — the claims
evaluate it only on such inputs), which accepts exactly one JSON value
plus trailing whitespace. -/

def lbraceChar : Char := Char.ofNat 123

def rbraceChar : Char := Char.ofNat 125

def skipWs : List Char → List Char
  | [] => []
  | c :: cs => if c.isWhitespace then skipWs cs else c :: cs

def escChar (c : Char) : Option Char :=
  if c = '"' then some '"'
  else if c = '\\' then some '\\'
  else if c = '/' then some '/'
  else if c = 'n' then some '\n'
  else if c = 't' then some '\t'
  else if c = 'r' then some '\r'
  else none

def parseStrBody : List Char → List Char → Option (String × List Char)
  | _, [] => none
  | acc, c :: cs =>
    if c = '"' then some (String.mk acc.reverse, cs)
    else if c = '\\' then
      match cs with
      | [] => none
      | e :: cs2 =>
        match escChar e with
        | some r => parseStrBody (r :: acc) cs2
        | none => none
    else parseStrBody (c :: acc) cs

def parseDigits : Int → List Char → Int × List Char
  | acc, [] => (acc, [])
  | acc, c :: cs =>
    if c.isDigit then parseDigits (acc * 10 + (Int.ofNat c.toNat - 48)) cs
    else (acc, c :: cs)

/-- The recursive-descent core, structurally recursive on fuel; `mode`
0 reads one value, 1 reads array items after `[`, 2 reads object
entries after the opening brace. -/
def parseCore : Nat → Nat → List Char → Option (JsonVal × List Char)
  | 0, _, _ => none
  | fuel + 1, 0, cs =>
    (match skipWs cs with
     | [] => none
     | c :: rest =>
       if c = '"' then
         match parseStrBody [] rest with
         | some (s, rest2) => some (JsonVal.str s, rest2)
         | none => none
       else if c = lbraceChar then parseCore fuel 2 rest
       else if c = '[' then parseCore fuel 1 rest
       else if hasInitSeg "null".toList (c :: rest) then
         some (JsonVal.null, (c :: rest).drop 4)
       else if hasInitSeg "true".toList (c :: rest) then
         some (JsonVal.bool true, (c :: rest).drop 4)
       else if hasInitSeg "false".toList (c :: rest) then
         some (JsonVal.bool false, (c :: rest).drop 5)
       else if c = '-' then
         match rest with
         | d :: _ =>
           if d.isDigit then
             match parseDigits 0 rest with
             | (n, rest2) => some (JsonVal.num (-n), rest2)
           else none
         | [] => none
       else if c.isDigit then
         match parseDigits 0 (c :: rest) with
         | (n, rest2) => some (JsonVal.num n, rest2)
       else none)
  | fuel + 1, 1, cs =>
    (match skipWs cs with
     | ']' :: rest => some (JsonVal.arr [], rest)
     | cs1 =>
       match parseCore fuel 0 cs1 with
       | none => none
       | some (v, rest) =>
         match skipWs rest with
         | ',' :: rest2 =>
           (match parseCore fuel 1 rest2 with
            | some (JsonVal.arr vs, rest3) => some (JsonVal.arr (v :: vs), rest3)
            | _ => none)
         | ']' :: rest2 => some (JsonVal.arr [v], rest2)
         | _ => none)
  | fuel + 1, _ + 2, cs =>
    (match skipWs cs with
     | c :: rest =>
       if c = rbraceChar then some (JsonVal.obj [], rest)
       else if c = '"' then
         match parseStrBody [] rest with
         | none => none
         | some (k, rest2) =>
           match skipWs rest2 with
           | ':' :: rest3 =>
             (match parseCore fuel 0 rest3 with
              | none => none
              | some (v, rest4) =>
                match skipWs rest4 with
                | ',' :: rest5 =>
                  (match parseCore fuel 2 rest5 with
                   | some (JsonVal.obj fs, rest6) =>
                     some (JsonVal.obj ((k, v) :: fs), rest6)
                   | _ => none)
                | c2 :: rest5 =>
                  if c2 = rbraceChar then some (JsonVal.obj [(k, v)], rest5)
                  else none
                | _ => none)
           | _ => none
       else none
     | [] => none)

/-- Model of `json.loads`: one JSON value, whitespace-padded, nothing
else. -/
def parseJson (s : String) : Option JsonVal :=
  let cs := s.toList
  match parseCore (2 * cs.length + 2) 0 cs with
  | some (v, rest) => if (skipWs rest).isEmpty then some v else none
  | none => none

/-- Model of `_JSON_OBJ_RE.search(text)` for the greedy DOTALL pattern:
the span from the first opening brace to the last closing brace, when
the brace pair exists in that order. -/
def jsonObjReSearch (s : String) : Option String :=
  let cs := s.toList
  match cs.findIdx? (fun c => c = lbraceChar) with
  | none => none
  | some f =>
    match cs.reverse.findIdx? (fun c => c = rbraceChar) with
    | none => none
    | some k =>
      let l := cs.length - 1 - k
      if f < l then some (String.mk ((cs.drop f).take (l - f + 1))) else none

/-- Embedding of `openrouter_chat_json` downstream of
`api_utils.send_prompt` (whose reply, possibly `None`, is the input):
strip, parse directly, fall back to the regex span, raise otherwise. -/
def openrouter_chat_json (reply : Option String) : Except String JsonVal :=
  match reply with
  | none => Except.error "api_utils.send_prompt returned None (request failed)."
  | some text0 =>
    let text := pyStrip text0
    match parseJson text with
    | some j => Except.ok j
    | none =>
      match jsonObjReSearch text with
      | some sub =>
        match parseJson sub with
        | some j => Except.ok j
        | none =>
          Except.error "Model output was not valid JSON even after extraction."
      | none => Except.error "Model output did not contain a JSON object."

/-- Spec-side: the first brace-delimited JSON object of a text — the
shortest substring that starts at the first opening brace and parses as
JSON. -/
def shortestParse (tail : List Char) : Option String :=
  (List.range tail.length).findSome? (fun k =>
    match parseJson (String.mk (tail.take (k + 1))) with
    | some _ => some (String.mk (tail.take (k + 1)))
    | none => none)

/-- Spec-side companion of `shortestParse` anchored at the first opening
brace. -/
def first_brace_object_spec (s : String) : Option String :=
  match s.toList.findIdx? (fun c => c = lbraceChar) with
  | none => none
  | some f => shortestParse (s.toList.drop f)

def cexChatText : String := "noise \x7b\"a\": 1\x7d mid \x7b\"b\": 2\x7d"

/-- Counterexample for claim C8 as stated: in this reply the first
brace-delimited JSON object exists and parses, so per the claim the
parser should return it; but the greedy regex captures from the first
opening brace to the LAST closing brace, that span does not parse, and
the function raises instead. -/
theorem chat_json_first_object_counterexample :
    first_brace_object_spec cexChatText = some "\x7b\"a\": 1\x7d" ∧
    (parseJson "\x7b\"a\": 1\x7d").isSome = true ∧
    jsonObjReSearch cexChatText = some "\x7b\"a\": 1\x7d mid \x7b\"b\": 2\x7d" ∧
    openrouter_chat_json (some cexChatText)
      = Except.error "Model output was not valid JSON even after extraction." := by
  refine ⟨?_, ?_, ?_, ?_⟩ <;> rfl

/-- Claim C8 (amended): the patch parser first parses the whole stripped
reply as JSON; if that fails it re-attempts on the span from the first
opening brace through the last closing brace of the text (the greedy
regex capture — not necessarily the first JSON object); if no JSON
object can be obtained this way, or the reply is missing, it raises an
error rather than returning a default. -/
theorem chat_json_fallback (reply : Option String) :
    (reply = none → ∃ e, openrouter_chat_json reply = Except.error e) ∧
    (∀ text, reply = some text →
      (∀ j, parseJson (pyStrip text) = some j →
        openrouter_chat_json reply = Except.ok j) ∧
      (parseJson (pyStrip text) = none →
        (∀ sub, jsonObjReSearch (pyStrip text) = some sub →
          (∀ j, parseJson sub = some j → openrouter_chat_json reply = Except.ok j) ∧
          (parseJson sub = none → ∃ e, openrouter_chat_json reply = Except.error e)) ∧
        (jsonObjReSearch (pyStrip text) = none →
          ∃ e, openrouter_chat_json reply = Except.error e))) := by
  refine ⟨fun h => ⟨_, by rw [h]; rfl⟩, fun text htext => ?_⟩
  subst htext
  refine ⟨fun j hj => by simp [openrouter_chat_json, hj], fun hnone => ?_⟩
  refine ⟨fun sub hsub => ⟨fun j hj => ?_, fun hsubnone => ?_⟩, fun hrenone => ?_⟩
  · simp [openrouter_chat_json, hnone, hsub, hj]
  · exact ⟨"Model output was not valid JSON even after extraction.",
      by simp [openrouter_chat_json, hnone, hsub, hsubnone]⟩
  · exact ⟨"Model output did not contain a JSON object.",
      by simp [openrouter_chat_json, hnone, hrenone]⟩

/-- Witness for C8 (amended): a missing reply raises. -/
theorem chat_json_fallback_witness :
    ∃ e, openrouter_chat_json none = Except.error e :=
  (chat_json_fallback none).1 rfl

/-! ## The Patch Loop (`llm_fix_by_target_iris`)

Each iteration observes the external world through: the ROBOT reason
process result (exit code and streams, classified by the embedded
`robot_reason_status`), the `robot_explain_markdown` outcome (a
`(mode, markdown)` pair, or a raised error), and the raw language-model
reply handed to the embedded `openrouter_chat_json`.  Patch validation
and application run the embedded `validate_patch_one_op` /
`apply_patch_to_ttl` on the current snapshot graph. -/

structure LLMIterObs where
  rc : Int
  out : String
  err : String
  explain : Except String (String × String)
  reply : Option String

/-- The history entry appended for an iteration (`history.append`). -/
structure IterationRecord where
  iteration : Nat
  robot_explain_mode : String
  rationale : JsonVal
  operations : JsonVal
  robot_reason_diagnostics_before : String

/-- `patch.get(k, default)`. -/
def pGet (patch : JsonVal) (k : String) (d : JsonVal) : JsonVal :=
  match patch with
  | JsonVal.obj fields => (jlookup fields k).getD d
  | _ => d

/-- The result object of `llm_fix_by_target_iris`. -/
structure LoopResult where
  status : String
  iterations : Nat
  history : List IterationRecord

/-- The `for it in range(1, max_iterations + 1)` loop; an
`Except.error` is a Python exception escaping the whole function. -/
def llmLoopAux (env : Nat → LLMIterObs) (maxIter : Nat) :
    Nat → RGraph → List IterationRecord → Nat → Except String LoopResult
  | 0, _, hist, it =>
    let obs := env it
    let st := (robot_reason_status obs.rc obs.out obs.err).1
    Except.ok ⟨if st = "coherent" then "coherent"
               else if st = "error" then "robot_reason_error"
               else "max_iterations_reached", maxIter, hist⟩
  | fuel + 1, g, hist, it =>
    let obs := env it
    let sd := robot_reason_status obs.rc obs.out obs.err
    if sd.1 = "coherent" then Except.ok ⟨"coherent", it - 1, hist⟩
    else if sd.1 = "error" then Except.ok ⟨"robot_reason_error", it - 1, hist⟩
    else
      match obs.explain with
      | Except.error e => Except.error e
      | Except.ok md =>
        match openrouter_chat_json obs.reply with
        | Except.error e => Except.error e
        | Except.ok patch =>
          match apply_patch_to_ttl g patch with
          | Except.error e => Except.error e
          | Except.ok g2 =>
            llmLoopAux env maxIter fuel g2
              (hist ++ [⟨it, md.1, pGet patch "rationale" (JsonVal.str ""),
                         pGet patch "operations" (JsonVal.arr []), sd.2⟩]) (it + 1)

/-- Embedding of `llm_fix_by_target_iris` (history starts empty,
iterations start at 1). -/
def llm_fix_by_target_iris (env : Nat → LLMIterObs) (g : RGraph)
    (maxIter : Nat) : Except String LoopResult :=
  llmLoopAux env maxIter maxIter g [] 1

/-- Number of iterations whose loop body starts executing (the claim's
notion of a started iteration). -/
def llmStartedCount (env : Nat → LLMIterObs) : Nat → RGraph → Nat → Nat
  | 0, _, _ => 0
  | fuel + 1, g, it =>
    let obs := env it
    let sd := robot_reason_status obs.rc obs.out obs.err
    if sd.1 = "coherent" then 1
    else if sd.1 = "error" then 1
    else
      match obs.explain with
      | Except.error _ => 1
      | Except.ok _ =>
        match openrouter_chat_json obs.reply with
        | Except.error _ => 1
        | Except.ok patch =>
          match apply_patch_to_ttl g patch with
          | Except.error _ => 1
          | Except.ok g2 => 1 + llmStartedCount env fuel g2 (it + 1)

/-- Number of iterations that run the body to completion, through patch
application. -/
def llmCompletedCount (env : Nat → LLMIterObs) : Nat → RGraph → Nat → Nat
  | 0, _, _ => 0
  | fuel + 1, g, it =>
    let obs := env it
    let sd := robot_reason_status obs.rc obs.out obs.err
    if sd.1 = "coherent" then 0
    else if sd.1 = "error" then 0
    else
      match obs.explain with
      | Except.error _ => 0
      | Except.ok _ =>
        match openrouter_chat_json obs.reply with
        | Except.error _ => 0
        | Except.ok patch =>
          match apply_patch_to_ttl g patch with
          | Except.error _ => 0
          | Except.ok g2 => 1 + llmCompletedCount env fuel g2 (it + 1)

theorem llmLoopAux_history (env : Nat → LLMIterObs) (maxIter : Nat) :
    ∀ fuel g hist it r,
      llmLoopAux env maxIter fuel g hist it = Except.ok r →
      r.history.length = hist.length + llmCompletedCount env fuel g it := by
  intro fuel
  induction fuel with
  | zero =>
    intro g hist it r h
    rw [llmLoopAux] at h
    injection h with h2
    rw [← h2]
    rfl
  | succ fuel ih =>
    intro g hist it r h
    rw [llmLoopAux] at h
    rw [llmCompletedCount]
    by_cases hc : (robot_reason_status (env it).rc (env it).out (env it).err).1
        = "coherent"
    · simp only [hc, if_true] at h ⊢
      injection h with h2
      rw [← h2]
      simp
    · by_cases he : (robot_reason_status (env it).rc (env it).out (env it).err).1
          = "error"
      · simp only [hc, he, if_true, if_false] at h ⊢
        injection h with h2
        rw [← h2]
        simp
      · simp only [hc, he, if_false] at h ⊢
        rcases hexp : (env it).explain with e | md
        · simp only [hexp] at h
          exact Except.noConfusion h
        · rcases hchat : openrouter_chat_json (env it).reply with e | patch
          · simp only [hexp, hchat] at h
            exact Except.noConfusion h
          · rcases happ : apply_patch_to_ttl g patch with e | g2
            · simp only [hexp, hchat, happ] at h
              exact Except.noConfusion h
            · simp only [hexp, hchat, happ] at h ⊢
              have hrec := ih g2 _ (it + 1) r h
              rw [hrec, List.length_append]
              simp only [List.length_singleton]
              omega

/-- An environment whose very first coherence check reports exit code 0
(coherent). -/
def constCoherentEnv : Nat → LLMIterObs :=
  fun _ => ⟨0, "", "", Except.error "no explanation", none⟩

/-- Counterexample for claim C3 as stated: with a first coherence check
returning Coherent, one iteration starts (the loop body runs its
coherence check) but the function returns with an empty history, so the
history length (0) differs from the number of started iterations (1). -/
theorem llm_history_started_counterexample :
    llm_fix_by_target_iris constCoherentEnv [] 5
      = Except.ok ⟨"coherent", 0, []⟩ ∧
    llmStartedCount constCoherentEnv 5 [] 1 = 1 ∧
    (0 : Nat) ≠ 1 :=
  ⟨rfl, rfl, by decide⟩

/-- Claim C3 (amended): exactly the iterations that complete patch
application append one IterationRecord each; an iteration that exits at
the coherence check (Coherent or ToolError) returns the history built
so far without a record for itself, and an iteration that raises during
explanation, patch request, validation, or application aborts the run
with no result at all — so whenever the loop returns a result, the
history length equals the number of iterations that completed patch
application. -/
theorem llm_history_length (env : Nat → LLMIterObs) (g : RGraph) (maxIter : Nat) :
    ∀ r, llm_fix_by_target_iris env g maxIter = Except.ok r →
      r.history.length = llmCompletedCount env maxIter g 1 := by
  intro r h
  have h2 := llmLoopAux_history env maxIter maxIter g [] 1 r h
  simpa using h2

/-- Witness for C3 (amended) at the constant-coherent environment. -/
theorem llm_history_length_witness :
    (⟨"coherent", 0, []⟩ : LoopResult).history.length
      = llmCompletedCount constCoherentEnv 5 [] 1 :=
  llm_history_length constCoherentEnv [] 5 ⟨"coherent", 0, []⟩ rfl

/-! ## Explanation slicing and targeted evidence

Embeddings of `slice_graph` and `build_targeted_evidence`.  Python sets
(seeds, frontier, seen) are duplicate-free lists; `out` is a graph built
with set-style adds. -/

def rdfsSubClassOf : Node := Node.uri "http://www.w3.org/2000/01/rdf-schema#subClassOf"

def rdfsDomain : Node := Node.uri "http://www.w3.org/2000/01/rdf-schema#domain"

def rdfsRange : Node := Node.uri "http://www.w3.org/2000/01/rdf-schema#range"

def owlDisjointWith : Node := Node.uri "http://www.w3.org/2002/07/owl#disjointWith"

def owlEquivalentClass : Node := Node.uri "http://www.w3.org/2002/07/owl#equivalentClass"

def owlEquivalentProperty : Node := Node.uri "http://www.w3.org/2002/07/owl#equivalentProperty"

/-- The seed filter used by both functions:
`u.startswith(("http://", "https://"))`. -/
def isHttpIri (u : String) : Bool :=
  strStarts u "http://" || strStarts u "https://"

def isBN (n : Node) : Bool :=
  match n with
  | Node.bnode _ => true
  | _ => false

/-- The first loop of `slice_graph`: add every triple touching a seed
and push connected blank nodes onto the frontier. -/
def firstPassSlice (seeds : List Node) :
    List Triple → List Triple → List Node → List Triple × List Node
  | [], out, fr => (out, fr)
  | t :: rest, out, fr =>
    if t.s ∈ seeds ∨ t.o ∈ seeds then
      let out2 := gAdd out t
      let fr2 := if isBN t.s then insertAbsent fr t.s else fr
      let fr3 := if isBN t.o then insertAbsent fr2 t.o else fr2
      firstPassSlice seeds rest out2 fr3
    else firstPassSlice seeds rest out fr

/-- Triples with the node as subject: add them, collect unseen blank
objects. -/
def roundSubj (seen : List Node) :
    List Triple → List Triple → List Node → List Triple × List Node
  | [], out, nf => (out, nf)
  | t :: rest, out, nf =>
    let out2 := gAdd out t
    let nf2 := if isBN t.o && decide (t.o ∉ seen) then insertAbsent nf t.o else nf
    roundSubj seen rest out2 nf2

/-- Triples with the node as object: add them, collect unseen blank
subjects. -/
def roundObj (seen : List Node) :
    List Triple → List Triple → List Node → List Triple × List Node
  | [], out, nf => (out, nf)
  | t :: rest, out, nf =>
    let out2 := gAdd out t
    let nf2 := if isBN t.s && decide (t.s ∉ seen) then insertAbsent nf t.s else nf
    roundObj seen rest out2 nf2

/-- One blank-node expansion round over the frontier. -/
def roundNodes (g : RGraph) :
    List Node → List Node → List Node → List Triple → List Node × List Node × List Triple
  | [], seen, nf, out => (seen, nf, out)
  | n :: rest, seen, nf, out =>
    if n ∈ seen then roundNodes g rest seen nf out
    else
      let seen2 := seen ++ [n]
      let r1 := roundSubj seen2 (g.filter (fun t => decide (t.s = n))) out nf
      let r2 := roundObj seen2 (g.filter (fun t => decide (t.o = n))) r1.1 r1.2
      roundNodes g rest seen2 r2.2 r2.1

/-- The `while depth < bnode_depth` loop (runs exactly `bnode_depth`
rounds). -/
def bnodeRounds (g : RGraph) : Nat → List Node → List Node → List Triple → List Triple
  | 0, _, _, out => out
  | d + 1, frontier, seen, out =>
    let r := roundNodes g frontier seen [] out
    bnodeRounds g d r.2.1 r.1 r.2.2

def schema_preds : List Node :=
  [rdfType, rdfsSubClassOf, rdfsDomain, rdfsRange, owlDisjointWith,
   owlEquivalentClass, owlEquivalentProperty, owlInverseOf, owlPropertyChainAxiom]

/-- Schema-level triples around one seed. -/
def schemaAdd (g : RGraph) : List Node → Node → List Triple → List Triple
  | [], _, out => out
  | p :: rest, u, out =>
    let out2 := (g.filter (fun t => decide (t.s = u) && decide (t.p = p))).foldl gAdd out
    let out3 := (g.filter (fun t => decide (t.p = p) && decide (t.o = u))).foldl gAdd out2
    schemaAdd g rest u out3

def schemaPass (g : RGraph) : List Node → List Triple → List Triple
  | [], out => out
  | u :: rest, out => schemaPass g rest (schemaAdd g schema_preds u out)

/-- Embedding of `slice_graph`. -/
def slice_graph (g : RGraph) (seed_iris : List String) (bnode_depth : Nat)
    (include_schema : Bool) : List Triple :=
  let seeds := ((seed_iris.filter isHttpIri).map Node.uri).dedup
  let fp := firstPassSlice seeds g [] seeds
  let out := bnodeRounds g bnode_depth fp.2 [] fp.1
  if include_schema then schemaPass g seeds out else out

/-- N-triples-style rendering of a term (the `term` helper of
`build_targeted_evidence`). -/
def term_str (t : Node) : String :=
  match t with
  | Node.uri u => "<" ++ u ++ ">"
  | Node.bnode b => "_:" ++ b
  | Node.lit lex (some dt) _ => "\"" ++ lex ++ "\"^^<" ++ dt ++ ">"
  | Node.lit lex none (some lg) => "\"" ++ lex ++ "\"@" ++ lg
  | Node.lit lex none none => "\"" ++ lex ++ "\""

/-- The hits loop with the `len(hits) >= max_triples` break. -/
def collectHits (targets : List Node) : List Triple → Nat → Nat → List Triple
  | [], _, _ => []
  | t :: rest, cnt, maxT =>
    if t.s ∈ targets ∨ t.p ∈ targets ∨ t.o ∈ targets then
      if maxT ≤ cnt + 1 then [t]
      else t :: collectHits targets rest (cnt + 1) maxT
    else collectHits targets rest cnt maxT

/-- Embedding of `build_targeted_evidence`. -/
def build_targeted_evidence (g : RGraph) (target_iris : List String)
    (max_triples : Nat) : String :=
  let targets := ((target_iris.filter isHttpIri).map Node.uri).dedup
  String.intercalate "\n" ((collectHits targets g 0 max_triples).map
    (fun t => term_str t.s ++ " " ++ term_str t.p ++ " " ++ term_str t.o ++ " ."))

theorem filterIdem {l : List String} {p : String → Bool} :
    (l.filter p).filter p = l.filter p := by
  rw [List.filter_filter]
  exact List.filter_congr (fun a _ => Bool.and_self (p a))

theorem firstPassSlice_empty : ∀ ts out fr, firstPassSlice [] ts out fr = (out, fr) := by
  intro ts
  induction ts with
  | nil => intro out fr; rfl
  | cons t rest ih =>
    intro out fr
    rw [firstPassSlice]
    simp only [List.not_mem_nil, or_self, if_false]
    exact ih out fr

theorem bnodeRounds_empty (g : RGraph) : ∀ d seen out, bnodeRounds g d [] seen out = out := by
  intro d
  induction d with
  | zero => intro seen out; rfl
  | succ d ih =>
    intro seen out
    rw [bnodeRounds]
    exact ih seen out

theorem collectHits_empty : ∀ ts cnt maxT, collectHits [] ts cnt maxT = [] := by
  intro ts
  induction ts with
  | nil => intro cnt maxT; rfl
  | cons t rest ih =>
    intro cnt maxT
    rw [collectHits]
    simp only [List.not_mem_nil, or_self, if_false]
    exact ih cnt maxT

/-- Claim C10: slice extraction and targeted-evidence building use only
the identifiers starting with `http://` or `https://` — filtering the
identifier set down to those changes nothing — and a justification
block whose identifiers are all non-HTTP yields an empty seed set, an
empty slice, and empty evidence. -/
theorem http_only_identifier_filtering (g : RGraph) (iris : List String)
    (d : Nat) (inc : Bool) (maxT : Nat) :
    slice_graph g iris d inc = slice_graph g (iris.filter isHttpIri) d inc ∧
    build_targeted_evidence g iris maxT
      = build_targeted_evidence g (iris.filter isHttpIri) maxT ∧
    ((∀ u ∈ iris, isHttpIri u = false) →
      slice_graph g iris d inc = [] ∧
      build_targeted_evidence g iris maxT = "") := by
  refine ⟨?_, ?_, fun hall => ?_⟩
  · simp only [slice_graph, filterIdem]
  · simp only [build_targeted_evidence, filterIdem]
  · have hrw : iris.filter isHttpIri = [] :=
      List.filter_eq_nil_iff.2 (fun u hu => by simp [hall u hu])
    constructor
    · simp only [slice_graph, hrw, List.map_nil, List.dedup_nil,
        firstPassSlice_empty, bnodeRounds_empty]
      cases inc <;> rfl
    · simp only [build_targeted_evidence, hrw, List.map_nil, List.dedup_nil,
        collectHits_empty]
      rfl

/-- Witness for C10: non-HTTP identifiers (`urn:`, blank-node tokens)
produce an empty slice and empty evidence on a nonempty graph. -/
theorem http_only_identifier_filtering_witness :
    slice_graph resolverWitnessGraph ["urn:a", "_:b"] 2 true = [] ∧
    build_targeted_evidence resolverWitnessGraph ["urn:a", "_:b"] 1200 = "" :=
  (http_only_identifier_filtering resolverWitnessGraph ["urn:a", "_:b"]
      2 true 1200).2.2 (by decide)
